import Mathlib

/-!
Gatekeeper IPC wire format (`gatekeeper/ta/include/gatekeeper_ipc.h`)

A shallow embedding of the serialization helpers of the gatekeeper trusted
application header, and theorems about them.

Memory model

The C helpers work on raw `uint8_t *` cursors and know nothing about where a
buffer ends.  The embedding therefore uses a flat byte-addressed memory
`Mem = Nat → Byte` with natural-number addresses; a cursor is an address.
A call `f(&buffer, ...)` becomes a function from the memory and the cursor
value before the call to the memory and the cursor value after the call.
Out-parameters (`*data`, `*length`) become components of the result.

Addresses are unbounded natural numbers, so a pointer addition never wraps
around.  On a target whose pointers have `w` bits this agrees with the source
as long as the sums stay below `2^w`.  Where that cannot be taken for granted,
namely when `deserialize_blob` adds a length read from the input to the
cursor, `deserialize_blob_w` is the same function with the pointer additions
taken modulo `2^w`.

`memcpy(dst, src, n)` copies the `n` bytes found at `src` before the call to
`dst`.  `memcpy` to or from the object representation of a `uint32_t` /
`uint64_t` local depends on the byte order of the target, which the header
does not fix; it is the parameter `ByteOrder` of the embedding.
-/

namespace Gatekeeper

/-! ## Bytes, addresses, memory -/

/-- The C type `uint8_t`. -/
abbrev Byte := Fin 256

/-- A flat byte-addressed memory; an address (`uint8_t *`) is a natural
number. -/
abbrev Mem := Nat → Byte

/-- The null pointer. -/
def NULL : Nat := 0

/-- Byte order of the target: how the object representation of an integer is
laid out in memory. -/
inductive ByteOrder where
  | little
  | big
  deriving DecidableEq, Repr

/-- The `n` bytes of memory starting at address `p`. -/
def loadBytes (mem : Mem) (p : Nat) (n : Nat) : List Byte :=
  (List.range n).map (fun i => mem (p + i))

/-- Memory after the bytes `bs` have been stored at addresses
`p, p+1, ..., p + bs.length - 1`. -/
def storeBytes (mem : Mem) (p : Nat) (bs : List Byte) : Mem :=
  fun a => if p ≤ a then bs.getD (a - p) (mem a) else mem a

/-- Library call `memcpy(dst, src, n)` between two memory areas. -/
def memcpy (mem : Mem) (dst src : Nat) (n : Nat) : Mem :=
  storeBytes mem dst (loadBytes mem src n)

/-! ## Object representation of unsigned integers -/

/-- The `w` low-order base-256 digits of `v`, least significant first. -/
def leBytes : Nat → Nat → List Byte
  | 0, _ => []
  | w + 1, v => ⟨v % 256, Nat.mod_lt v (by decide)⟩ :: leBytes w (v / 256)

/-- The number whose base-256 digits, least significant first, are `bs`. -/
def leValue : List Byte → Nat
  | [] => 0
  | b :: bs => b.val + 256 * leValue bs

/-- Object representation of the `w`-byte unsigned integer `v`
(the bytes `memcpy(dst, &v, w)` copies). -/
def objRepr (bo : ByteOrder) (w v : Nat) : List Byte :=
  match bo with
  | .little => leBytes w v
  | .big => (leBytes w v).reverse

/-- Value of the unsigned integer object whose representation is `bs`
(the value of `x` after `memcpy(&x, src, sizeof x)`). -/
def objValue (bo : ByteOrder) (bs : List Byte) : Nat :=
  match bo with
  | .little => leValue bs
  | .big => leValue bs.reverse

/-! ## Constants of the header -/

/-- Enumerator `GK_ENROLL` of `gatekeeper_command_t`. -/
def GK_ENROLL : Nat := 0
/-- Enumerator `GK_VERIFY` of `gatekeeper_command_t`. -/
def GK_VERIFY : Nat := 1

/-- Enumerator `ERROR_NONE` of `gatekeeper_error_t`. -/
def ERROR_NONE : Nat := 0
/-- Enumerator `ERROR_INVALID` of `gatekeeper_error_t`. -/
def ERROR_INVALID : Nat := 1
/-- Enumerator `ERROR_RETRY` of `gatekeeper_error_t`. -/
def ERROR_RETRY : Nat := 2
/-- Enumerator `ERROR_UNKNOWN` of `gatekeeper_error_t`. -/
def ERROR_UNKNOWN : Nat := 3

/-- The message size `RECV_BUF_SIZE`. -/
def RECV_BUF_SIZE : Nat := 8192

/-- Values a C `enum` declaration gives its enumerators, in order of
declaration: an enumerator written `= k` has the value `k`, one written
without a value has the value of its predecessor plus one, and the first one
the value `next` (0 in C). -/
def enumValues : List (Option Nat) → Nat → List Nat
  | [], _ => []
  | some k :: rest, _ => k :: enumValues rest (k + 1)
  | none :: rest, next => next :: enumValues rest (next + 1)

/-- The declaration `typedef enum { GK_ENROLL, GK_VERIFY, } gatekeeper_command_t;`:
the values of its enumerators. -/
def gatekeeper_command_t : List Nat := enumValues [none, none] 0

/-- The declaration
`typedef enum { ERROR_NONE = 0, ERROR_INVALID, ERROR_RETRY, ERROR_UNKNOWN, } gatekeeper_error_t;`:
the values of its enumerators. -/
def gatekeeper_error_t : List Nat := enumValues [some 0, none, none, none] 0

/-! ## Size function -/

/-- The function `get_size(const uint8_t *buffer, const uint8_t *iter)`:
```
return iter - buffer;
```
The pointer difference is converted to the return type `uint32_t`. -/
def get_size (buffer iter : Nat) : Nat :=
  (((iter : Int) - (buffer : Int)) % 2 ^ 32).toNat

/-! ## Serialization functions -/

/-- Memory and write cursor (`*buffer`) threaded through the serialization
functions. -/
structure WState where
  mem : Mem
  buffer : Nat

/-- The function `serialize_blob(uint8_t **buffer, const uint8_t *data, uint32_t length)`:
```
memcpy(*buffer, &length, sizeof(length));
*buffer += sizeof(length);
if (length) { memcpy(*buffer, data, length); *buffer += length; }
```
The argument `length` is converted to `uint32_t` at the call. -/
def serialize_blob (bo : ByteOrder) (s : WState) (data : Nat) (length : Nat) : WState :=
  let length := length % 2 ^ 32
  let mem1 := storeBytes s.mem s.buffer (objRepr bo 4 length)
  let buffer1 := s.buffer + 4
  if length ≠ 0 then
    { mem := memcpy mem1 buffer1 data length, buffer := buffer1 + length }
  else
    { mem := mem1, buffer := buffer1 }

/-- The function `serialize_int(uint8_t **buffer, uint32_t data)`:
```
memcpy(*buffer, &data, sizeof(data));
*buffer += sizeof(data);
```
-/
def serialize_int (bo : ByteOrder) (s : WState) (data : Nat) : WState :=
  let data := data % 2 ^ 32
  { mem := storeBytes s.mem s.buffer (objRepr bo 4 data), buffer := s.buffer + 4 }

/-- The function `serialize_int64(uint8_t **buffer, uint64_t data)`:
```
memcpy(*buffer, &data, sizeof(data));
*buffer += sizeof(data);
```
-/
def serialize_int64 (bo : ByteOrder) (s : WState) (data : Nat) : WState :=
  let data := data % 2 ^ 64
  { mem := storeBytes s.mem s.buffer (objRepr bo 8 data), buffer := s.buffer + 8 }

/-! ## Deserialization functions -/

/-- Result of `deserialize_blob`: the read cursor `*buffer` after the call and
the out-parameters `*data` and `*length`. -/
structure BlobRead where
  buffer : Nat
  data : Nat
  length : Nat
  deriving DecidableEq, Repr

/-- Result of `deserialize_int` / `deserialize_int64`: the read cursor
`*buffer` after the call and the out-parameter `*data`. -/
structure IntRead where
  buffer : Nat
  data : Nat
  deriving DecidableEq, Repr

/-- The function `deserialize_blob(const uint8_t **buffer, const uint8_t **data, uint32_t *length)`:
```
memcpy(length, *buffer, sizeof(*length));
*buffer += sizeof(*length);
if (*length) { *data = *buffer; *buffer += *length; } else { *data = NULL; }
```
The cursor is computed with unbounded addresses; `deserialize_blob_w` takes
the pointer additions modulo the pointer width. -/
def deserialize_blob (bo : ByteOrder) (mem : Mem) (buffer : Nat) : BlobRead :=
  let length := objValue bo (loadBytes mem buffer 4)
  let buffer1 := buffer + 4
  if length ≠ 0 then
    { buffer := buffer1 + length, data := buffer1, length := length }
  else
    { buffer := buffer1, data := NULL, length := length }

/-- The function `deserialize_int(const uint8_t **buffer, uint32_t *data)`:
```
memcpy(data, *buffer, sizeof(*data));
*buffer += sizeof(*data);
```
-/
def deserialize_int (bo : ByteOrder) (mem : Mem) (buffer : Nat) : IntRead :=
  { buffer := buffer + 4, data := objValue bo (loadBytes mem buffer 4) }

/-- The function `deserialize_int64(const uint8_t **buffer, uint64_t *data)`:
```
memcpy(data, *buffer, sizeof(*data));
*buffer += sizeof(*data);
```
-/
def deserialize_int64 (bo : ByteOrder) (mem : Mem) (buffer : Nat) : IntRead :=
  { buffer := buffer + 8, data := objValue bo (loadBytes mem buffer 8) }

/-- The function `deserialize_blob` on a target whose pointers have `w` bits:
```
memcpy(length, *buffer, sizeof(*length));
*buffer += sizeof(*length);
if (*length) { *data = *buffer; *buffer += *length; } else { *data = NULL; }
```
with the two pointer additions `*buffer += ...` taken modulo `2^w`. -/
def deserialize_blob_w (w : Nat) (bo : ByteOrder) (mem : Mem) (buffer : Nat) : BlobRead :=
  let length := objValue bo (loadBytes mem buffer 4)
  let buffer1 := (buffer + 4) % 2 ^ w
  if length ≠ 0 then
    { buffer := (buffer1 + length) % 2 ^ w, data := buffer1, length := length }
  else
    { buffer := buffer1, data := NULL, length := length }

/-! ## Call sequences

The header has no function that writes or reads a whole message; its callers
do so by calling the helpers one after the other.  The definitions below are
those call sequences. -/

/-- The arguments `data` and `length` of one `serialize_blob` call, and
likewise the out-parameters `*data` and `*length` of one `deserialize_blob`
call. -/
structure Blob where
  data : Nat
  length : Nat
  deriving DecidableEq, Repr

/-- One `serialize_blob(&buffer, b.data, b.length)` call per element of the
list, in order. -/
def serialize_blobs (bo : ByteOrder) : WState → List Blob → WState
  | s, [] => s
  | s, b :: bs => serialize_blobs bo (serialize_blob bo s b.data b.length) bs

/-- The calls `serialize_int(&buffer, code)` and then one `serialize_blob`
call per blob. -/
def write_message (bo : ByteOrder) (s : WState) (code : Nat) (blobs : List Blob) : WState :=
  serialize_blobs bo (serialize_int bo s code) blobs

/-- Read cursor and out-parameters after `n` consecutive `deserialize_blob`
calls on the same cursor. -/
def deserialize_blobs (bo : ByteOrder) (mem : Mem) : Nat → Nat → Nat × List Blob
  | buffer, 0 => (buffer, [])
  | buffer, n + 1 =>
    let r := deserialize_blob bo mem buffer
    let rest := deserialize_blobs bo mem r.buffer n
    (rest.1, ⟨r.data, r.length⟩ :: rest.2)

/-- Result of reading a message: the read cursor, the leading code and the
blob views. -/
structure MessageRead where
  buffer : Nat
  code : Nat
  blobs : List Blob
  deriving DecidableEq, Repr

/-- The call `deserialize_int(&buffer, &code)` and then `n` calls of
`deserialize_blob`. -/
def read_message (bo : ByteOrder) (mem : Mem) (buffer n : Nat) : MessageRead :=
  let r := deserialize_int bo mem buffer
  let rest := deserialize_blobs bo mem r.buffer n
  { buffer := rest.1, code := r.data, blobs := rest.2 }

/-- One field of a message payload, with the arguments of the call that
writes it: `serialize_int(&buffer, v)`, `serialize_int64(&buffer, v)` or
`serialize_blob(&buffer, data, length)`. -/
inductive Field where
  | int (v : Nat)
  | int64 (v : Nat)
  | blob (data length : Nat)
  deriving DecidableEq, Repr

/-- The call that writes one field. -/
def serialize_field (bo : ByteOrder) (s : WState) : Field → WState
  | .int v => serialize_int bo s v
  | .int64 v => serialize_int64 bo s v
  | .blob data length => serialize_blob bo s data length

/-- One call per field, in order. -/
def serialize_fields (bo : ByteOrder) : WState → List Field → WState
  | s, [] => s
  | s, f :: fs => serialize_fields bo (serialize_field bo s f) fs

/-- The arguments of the call fit the C parameter types (`uint32_t` values
and lengths, `uint64_t` values). -/
def Field.WellTyped : Field → Prop
  | .int v => v < 2 ^ 32
  | .int64 v => v < 2 ^ 64
  | .blob _ length => length < 2 ^ 32

instance (f : Field) : Decidable f.WellTyped := by
  cases f <;> unfold Field.WellTyped <;> infer_instance

/-- Encoded width of a field: 4, 8, or 4 + length. -/
def Field.width : Field → Nat
  | .int _ => 4
  | .int64 _ => 8
  | .blob _ length => 4 + length

/-- Sum of the encoded widths of the fields. -/
def fieldsSize : List Field → Nat
  | [] => 0
  | f :: fs => f.width + fieldsSize fs

/-- The bytes one `serialize_blob` call is to leave behind the cursor for a
blob whose `length` source bytes are read from memory `mem`: the
representation of the length, then the source bytes. -/
def blobBytes (bo : ByteOrder) (mem : Mem) (b : Blob) : List Byte :=
  objRepr bo 4 b.length ++ loadBytes mem b.data b.length

/-- The bytes a sequence of `serialize_blob` calls is to leave behind the
starting cursor: the bytes of each blob, in order. -/
def blobsBytes (bo : ByteOrder) (mem : Mem) : List Blob → List Byte
  | [] => []
  | b :: bs => blobBytes bo mem b ++ blobsBytes bo mem bs

/-- Same contents: equal lengths and equal bytes, the first blob read from
`mem1` and the second from `mem2`. -/
def SameBlob (mem1 mem2 : Mem) (b1 b2 : Blob) : Prop :=
  b1.length = b2.length ∧
  loadBytes mem1 b1.data b1.length = loadBytes mem2 b2.data b2.length

instance (mem1 mem2 : Mem) (b1 b2 : Blob) : Decidable (SameBlob mem1 mem2 b1 b2) := by
  unfold SameBlob
  infer_instance

/-- The bytes the call that writes a field is to leave behind the cursor: the
representation of the integer, or for a blob the representation of the length
followed by the `length` source bytes read from memory `mem`. -/
def fieldBytes (bo : ByteOrder) (mem : Mem) : Field → List Byte
  | .int v => objRepr bo 4 v
  | .int64 v => objRepr bo 8 v
  | .blob data length => objRepr bo 4 length ++ loadBytes mem data length

/-- The bytes a sequence of field writes is to leave behind the starting
cursor: the bytes of each field, in order. -/
def fieldsBytes (bo : ByteOrder) (mem : Mem) : List Field → List Byte
  | [] => []
  | f :: fs => fieldBytes bo mem f ++ fieldsBytes bo mem fs

/-- The source area `[data, data + length)` of a non-empty blob field does not
overlap the area `[lo, hi)`; integer fields have no source area. -/
def Field.SourceOutside (lo hi : Nat) : Field → Prop
  | .int _ => True
  | .int64 _ => True
  | .blob data length => length ≠ 0 → data + length ≤ lo ∨ hi ≤ data

instance (lo hi : Nat) (f : Field) : Decidable (f.SourceOutside lo hi) := by
  cases f <;> unfold Field.SourceOutside <;> infer_instance

/-- Number of bytes the blobs occupy on the wire: 4 + length for each. -/
def blobsSize : List Blob → Nat
  | [] => 0
  | b :: bs => 4 + b.length + blobsSize bs

/-- The view `v` read from memory `wmem` reproduces the blob `b` as it was in
memory `mem`: same length, same bytes, and a `NULL` view for an empty blob. -/
def IsViewOf (wmem mem : Mem) (v b : Blob) : Prop :=
  v.length = b.length ∧
  loadBytes wmem v.data v.length = loadBytes mem b.data b.length ∧
  (b.length = 0 → v.data = NULL)

instance (wmem mem : Mem) (v b : Blob) : Decidable (IsViewOf wmem mem v b) := by
  unfold IsViewOf
  infer_instance

/-! ## Facts about memory -/

theorem length_loadBytes (mem : Mem) (p : Nat) (n : Nat) :
    (loadBytes mem p n).length = n := by
  simp [loadBytes]

theorem getElem_loadBytes (mem : Mem) (p : Nat) (n i : Nat)
    (h : i < (loadBytes mem p n).length) :
    (loadBytes mem p n)[i] = mem (p + i) := by
  simp [loadBytes]

/-- Loading depends only on the bytes in the loaded range. -/
theorem loadBytes_congr {m1 m2 : Mem} {p : Nat} {n : Nat}
    (h : ∀ a, p ≤ a → a < p + n → m1 a = m2 a) :
    loadBytes m1 p n = loadBytes m2 p n := by
  unfold loadBytes
  apply List.map_congr_left
  intro i hi
  rw [List.mem_range] at hi
  exact h _ (by omega) (by omega)

/-- A store leaves every address outside the stored range alone. -/
theorem storeBytes_outside (mem : Mem) (p : Nat) (bs : List Byte) (a : Nat)
    (h : a < p ∨ p + bs.length ≤ a) : storeBytes mem p bs a = mem a := by
  unfold storeBytes
  split
  · rw [List.getD_eq_default]
    omega
  · rfl

theorem storeBytes_inside (mem : Mem) (p : Nat) (bs : List Byte) (i : Nat)
    (h : i < bs.length) : storeBytes mem p bs (p + i) = bs[i] := by
  simp [storeBytes, List.getD_eq_getElem?_getD, List.getElem?_eq_getElem h]

/-- Loading what was just stored gives the stored bytes. -/
theorem loadBytes_storeBytes (mem : Mem) (p : Nat) (bs : List Byte) :
    loadBytes (storeBytes mem p bs) p bs.length = bs := by
  apply List.ext_getElem
  · simp [length_loadBytes]
  · intro i h1 h2
    rw [getElem_loadBytes, storeBytes_inside _ _ _ _ h2]

/-! ## Facts about object representations -/

theorem length_leBytes (w v : Nat) : (leBytes w v).length = w := by
  induction w generalizing v with
  | zero => rfl
  | succ w ih => simp [leBytes, ih]

theorem leValue_leBytes (w v : Nat) : leValue (leBytes w v) = v % 256 ^ w := by
  induction w generalizing v with
  | zero => simp [leBytes, leValue, Nat.mod_one]
  | succ w ih =>
    simp only [leBytes, leValue, ih]
    rw [pow_succ', Nat.mod_mul]

theorem getElem_leBytes (w v i : Nat) (h : i < (leBytes w v).length) :
    ((leBytes w v)[i]).val = v / 256 ^ i % 256 := by
  induction w generalizing v i with
  | zero => simp [leBytes] at h
  | succ w ih =>
    cases i with
    | zero => simp [leBytes]
    | succ i =>
      simp only [leBytes, List.getElem_cons_succ]
      rw [ih, Nat.div_div_eq_div_mul, pow_succ']

theorem length_objRepr (bo : ByteOrder) (w v : Nat) : (objRepr bo w v).length = w := by
  cases bo <;> simp [objRepr, length_leBytes]

/-- Reading back an object representation gives the value, reduced to the
width of the object. -/
theorem objValue_objRepr (bo : ByteOrder) (w v : Nat) :
    objValue bo (objRepr bo w v) = v % 256 ^ w := by
  cases bo <;> simp [objRepr, objValue, leValue_leBytes]

theorem leValue_lt (bs : List Byte) : leValue bs < 256 ^ bs.length := by
  induction bs with
  | nil => simp [leValue]
  | cons b bs ih =>
    simp only [leValue, List.length_cons, pow_succ']
    have := b.isLt
    omega

theorem objValue_lt (bo : ByteOrder) (bs : List Byte) :
    objValue bo bs < 256 ^ bs.length := by
  cases bo
  · exact leValue_lt bs
  · simpa [objValue] using leValue_lt bs.reverse

/-! ## Facts about the single calls -/

theorem two_pow_32 : (256 : Nat) ^ 4 = 2 ^ 32 := by norm_num

theorem two_pow_64 : (256 : Nat) ^ 8 = 2 ^ 64 := by norm_num

/-- Loading `w` bytes where the representation of a `w`-byte integer was
stored gives that representation. -/
theorem loadBytes_store_objRepr (bo : ByteOrder) (mem : Mem) (p w v : Nat) :
    loadBytes (storeBytes mem p (objRepr bo w v)) p w = objRepr bo w v := by
  have h := loadBytes_storeBytes mem p (objRepr bo w v)
  rwa [length_objRepr] at h

theorem serialize_int_eq (bo : ByteOrder) (s : WState) (v : Nat) (hv : v < 2 ^ 32) :
    serialize_int bo s v =
      { mem := storeBytes s.mem s.buffer (objRepr bo 4 v), buffer := s.buffer + 4 } := by
  simp only [serialize_int, Nat.mod_eq_of_lt hv]

theorem serialize_int64_eq (bo : ByteOrder) (s : WState) (v : Nat) (hv : v < 2 ^ 64) :
    serialize_int64 bo s v =
      { mem := storeBytes s.mem s.buffer (objRepr bo 8 v), buffer := s.buffer + 8 } := by
  simp only [serialize_int64, Nat.mod_eq_of_lt hv]

theorem serialize_blob_zero (bo : ByteOrder) (s : WState) (data : Nat) :
    serialize_blob bo s data 0 =
      { mem := storeBytes s.mem s.buffer (objRepr bo 4 0), buffer := s.buffer + 4 } := by
  simp [serialize_blob]

theorem serialize_blob_pos (bo : ByteOrder) (s : WState) (data n : Nat)
    (hn : n < 2 ^ 32) (h0 : n ≠ 0) :
    serialize_blob bo s data n =
      { mem := memcpy (storeBytes s.mem s.buffer (objRepr bo 4 n)) (s.buffer + 4) data n,
        buffer := s.buffer + 4 + n } := by
  simp only [serialize_blob, Nat.mod_eq_of_lt hn, ne_eq, h0, not_false_eq_true, if_true]

/-- The write cursor after `serialize_blob`. -/
theorem serialize_blob_buffer (bo : ByteOrder) (s : WState) (data n : Nat)
    (hn : n < 2 ^ 32) : (serialize_blob bo s data n).buffer = s.buffer + 4 + n := by
  by_cases h0 : n = 0
  · subst h0
    rw [serialize_blob_zero]
  · rw [serialize_blob_pos bo s data n hn h0]

/-- Frame of `serialize_blob`: only the addresses `[buffer, buffer + 4 + n)`
change. -/
theorem serialize_blob_outside (bo : ByteOrder) (s : WState) (data n a : Nat)
    (hn : n < 2 ^ 32) (ha : a < s.buffer ∨ s.buffer + 4 + n ≤ a) :
    (serialize_blob bo s data n).mem a = s.mem a := by
  by_cases h0 : n = 0
  · subst h0
    rw [serialize_blob_zero]
    exact storeBytes_outside _ _ _ _ (by rw [length_objRepr]; omega)
  · rw [serialize_blob_pos bo s data n hn h0]
    show storeBytes _ _ _ a = _
    rw [storeBytes_outside _ _ _ _ (by rw [length_loadBytes]; omega)]
    exact storeBytes_outside _ _ _ _ (by rw [length_objRepr]; omega)

/-- The length field left by `serialize_blob`. -/
theorem serialize_blob_length_field (bo : ByteOrder) (s : WState) (data n : Nat)
    (hn : n < 2 ^ 32) :
    loadBytes (serialize_blob bo s data n).mem s.buffer 4 = objRepr bo 4 n := by
  by_cases h0 : n = 0
  · subst h0
    rw [serialize_blob_zero]
    exact loadBytes_store_objRepr bo s.mem s.buffer 4 0
  · rw [serialize_blob_pos bo s data n hn h0]
    rw [← loadBytes_store_objRepr bo s.mem s.buffer 4 n]
    apply loadBytes_congr
    intro a h1 h2
    show storeBytes _ _ _ a = _
    rw [storeBytes_outside _ _ _ _ (by omega)]
    rw [loadBytes_store_objRepr]

/-- The payload left by `serialize_blob`, when the source area does not
overlap the written area. -/
theorem serialize_blob_payload (bo : ByteOrder) (s : WState) (data n : Nat)
    (hn : n < 2 ^ 32) (hsep : n ≠ 0 → data + n ≤ s.buffer ∨ s.buffer + 4 + n ≤ data) :
    loadBytes (serialize_blob bo s data n).mem (s.buffer + 4) n = loadBytes s.mem data n := by
  by_cases h0 : n = 0
  · subst h0
    simp [loadBytes]
  · rw [serialize_blob_pos bo s data n hn h0]
    have h := loadBytes_storeBytes (storeBytes s.mem s.buffer (objRepr bo 4 n)) (s.buffer + 4)
      (loadBytes (storeBytes s.mem s.buffer (objRepr bo 4 n)) data n)
    rw [length_loadBytes] at h
    show loadBytes (storeBytes _ _ _) _ _ = _
    rw [h]
    apply loadBytes_congr
    intro a h1 h2
    have := hsep h0
    exact storeBytes_outside _ _ _ _ (by rw [length_objRepr]; omega)

/-- What `deserialize_blob` returns when the 4 bytes at the cursor are the
representation of `n`. -/
theorem deserialize_blob_of_field (bo : ByteOrder) (mem : Mem) (p n : Nat)
    (hn : n < 2 ^ 32) (hf : loadBytes mem p 4 = objRepr bo 4 n) :
    deserialize_blob bo mem p
      = if n ≠ 0 then ⟨p + 4 + n, p + 4, n⟩ else ⟨p + 4, NULL, n⟩ := by
  unfold deserialize_blob
  rw [hf, objValue_objRepr, two_pow_32, Nat.mod_eq_of_lt hn]

/-! ## Facts about call sequences -/

theorem serialize_blobs_buffer (bo : ByteOrder) (blobs : List Blob) (s : WState)
    (hlen : ∀ b ∈ blobs, b.length < 2 ^ 32) :
    (serialize_blobs bo s blobs).buffer = s.buffer + blobsSize blobs := by
  induction blobs generalizing s with
  | nil => rfl
  | cons b bs ih =>
    simp only [serialize_blobs, blobsSize]
    rw [ih _ (fun x hx => hlen x (List.mem_cons_of_mem _ hx)),
      serialize_blob_buffer bo s b.data b.length (hlen b (List.mem_cons_self _ _))]
    omega

/-- Frame of a sequence of `serialize_blob` calls. -/
theorem serialize_blobs_outside (bo : ByteOrder) (blobs : List Blob) (s : WState) (a : Nat)
    (hlen : ∀ b ∈ blobs, b.length < 2 ^ 32)
    (ha : a < s.buffer ∨ s.buffer + blobsSize blobs ≤ a) :
    (serialize_blobs bo s blobs).mem a = s.mem a := by
  induction blobs generalizing s with
  | nil => rfl
  | cons b bs ih =>
    have hb := hlen b (List.mem_cons_self _ _)
    simp only [serialize_blobs, blobsSize] at ha ⊢
    rw [ih _ (fun x hx => hlen x (List.mem_cons_of_mem _ hx))
      (by rw [serialize_blob_buffer bo s b.data b.length hb]; omega)]
    exact serialize_blob_outside bo s b.data b.length a hb (by omega)

/-- Reading back a sequence of blobs from where it was written. -/
theorem deserialize_serialize_blobs (bo : ByteOrder) (mem0 : Mem) (blobs : List Blob)
    (s : WState) (hlen : ∀ b ∈ blobs, b.length < 2 ^ 32)
    (hsep : ∀ b ∈ blobs, b.length ≠ 0 →
      b.data + b.length ≤ s.buffer ∨ s.buffer + blobsSize blobs ≤ b.data)
    (hsame : ∀ b ∈ blobs, loadBytes s.mem b.data b.length = loadBytes mem0 b.data b.length) :
    (deserialize_blobs bo (serialize_blobs bo s blobs).mem s.buffer blobs.length).1
      = (serialize_blobs bo s blobs).buffer ∧
    List.Forall₂ (IsViewOf (serialize_blobs bo s blobs).mem mem0)
      (deserialize_blobs bo (serialize_blobs bo s blobs).mem s.buffer blobs.length).2 blobs := by
  induction blobs generalizing s with
  | nil => exact ⟨rfl, List.Forall₂.nil⟩
  | cons b bs ih =>
    have hb := hlen b (List.mem_cons_self _ _)
    have hbs : ∀ x ∈ bs, x.length < 2 ^ 32 := fun x hx => hlen x (List.mem_cons_of_mem _ hx)
    have hbuf := serialize_blob_buffer bo s b.data b.length hb
    -- the state after the first call, and the facts the remaining calls need
    have hsep1 : ∀ x ∈ bs, x.length ≠ 0 →
        x.data + x.length ≤ (serialize_blob bo s b.data b.length).buffer ∨
        (serialize_blob bo s b.data b.length).buffer + blobsSize bs ≤ x.data := by
      intro x hx h0
      have := hsep x (List.mem_cons_of_mem _ hx) h0
      simp only [blobsSize] at this
      rw [hbuf]
      omega
    have hsame1 : ∀ x ∈ bs,
        loadBytes (serialize_blob bo s b.data b.length).mem x.data x.length
          = loadBytes mem0 x.data x.length := by
      intro x hx
      rw [← hsame x (List.mem_cons_of_mem _ hx)]
      by_cases h0 : x.length = 0
      · rw [h0]; rfl
      · apply loadBytes_congr
        intro a h1 h2
        have := hsep x (List.mem_cons_of_mem _ hx) h0
        simp only [blobsSize] at this
        exact serialize_blob_outside bo s b.data b.length a hb (by omega)
    obtain ⟨ih1, ih2⟩ := ih (serialize_blob bo s b.data b.length) hbs hsep1 hsame1
    -- the later calls leave the first field alone
    have hframe : ∀ a, a < s.buffer + 4 + b.length →
        (serialize_blobs bo (serialize_blob bo s b.data b.length) bs).mem a
          = (serialize_blob bo s b.data b.length).mem a := by
      intro a ha
      exact serialize_blobs_outside bo bs _ a hbs (by rw [hbuf]; omega)
    have hfield :
        loadBytes (serialize_blobs bo (serialize_blob bo s b.data b.length) bs).mem s.buffer 4
          = objRepr bo 4 b.length := by
      rw [← serialize_blob_length_field bo s b.data b.length hb]
      exact loadBytes_congr (fun a _ h2 => hframe a (by omega))
    have hread := deserialize_blob_of_field bo _ s.buffer b.length hb hfield
    simp only [serialize_blobs, List.length_cons, deserialize_blobs]
    by_cases h0 : b.length = 0
    · rw [if_neg (by simpa using h0)] at hread
      rw [hread]
      have hbuf0 : (serialize_blob bo s b.data b.length).buffer = s.buffer + 4 := by
        rw [hbuf, h0]
      rw [hbuf0] at ih1 ih2
      refine ⟨ih1, List.Forall₂.cons ⟨rfl, ?_, fun _ => rfl⟩ ih2⟩
      show loadBytes _ _ b.length = _
      rw [h0]; rfl
    · rw [if_pos h0] at hread
      rw [hread]
      rw [hbuf] at ih1 ih2
      refine ⟨ih1, List.Forall₂.cons ⟨rfl, ?_, fun h => absurd h h0⟩ ih2⟩
      show loadBytes _ (s.buffer + 4) b.length = _
      rw [← hsame b (List.mem_cons_self _ _),
        ← serialize_blob_payload bo s b.data b.length hb (fun h => by
          have := hsep b (List.mem_cons_self _ _) h
          simp only [blobsSize] at this
          omega)]
      exact loadBytes_congr (fun a _ h2 => hframe a (by omega))

/-- The write cursor after a sequence of field writes. -/
theorem serialize_fields_buffer (bo : ByteOrder) (fields : List Field) (s : WState)
    (hf : ∀ f ∈ fields, f.WellTyped) :
    (serialize_fields bo s fields).buffer = s.buffer + fieldsSize fields := by
  induction fields generalizing s with
  | nil => rfl
  | cons f fs ih =>
    have h1 : (serialize_field bo s f).buffer = s.buffer + f.width := by
      have hw := hf f (List.mem_cons_self _ _)
      cases f with
      | int v => rfl
      | int64 v => rfl
      | blob data length =>
        show (serialize_blob bo s data length).buffer = s.buffer + (4 + length)
        rw [serialize_blob_buffer bo s data length hw]
        omega
    simp only [serialize_fields, fieldsSize]
    rw [ih _ (fun x hx => hf x (List.mem_cons_of_mem _ hx)), h1]
    omega

/-- The write cursor after one field write. -/
theorem serialize_field_buffer (bo : ByteOrder) (s : WState) (f : Field)
    (hf : f.WellTyped) : (serialize_field bo s f).buffer = s.buffer + f.width := by
  cases f with
  | int v => rfl
  | int64 v => rfl
  | blob data length =>
    show (serialize_blob bo s data length).buffer = s.buffer + (4 + length)
    rw [serialize_blob_buffer bo s data length hf]
    omega

/-- Frame of `serialize_int`. -/
theorem serialize_int_outside (bo : ByteOrder) (s : WState) (v a : Nat)
    (ha : a < s.buffer ∨ s.buffer + 4 ≤ a) : (serialize_int bo s v).mem a = s.mem a := by
  show storeBytes _ _ _ a = _
  exact storeBytes_outside _ _ _ _ (by rw [length_objRepr]; exact ha)

/-- Frame of `serialize_int64`. -/
theorem serialize_int64_outside (bo : ByteOrder) (s : WState) (v a : Nat)
    (ha : a < s.buffer ∨ s.buffer + 8 ≤ a) : (serialize_int64 bo s v).mem a = s.mem a := by
  show storeBytes _ _ _ a = _
  exact storeBytes_outside _ _ _ _ (by rw [length_objRepr]; exact ha)

/-- Frame of one field write. -/
theorem serialize_field_outside (bo : ByteOrder) (s : WState) (f : Field) (a : Nat)
    (hf : f.WellTyped) (ha : a < s.buffer ∨ s.buffer + f.width ≤ a) :
    (serialize_field bo s f).mem a = s.mem a := by
  cases f with
  | int v => exact serialize_int_outside bo s v a ha
  | int64 v => exact serialize_int64_outside bo s v a ha
  | blob data length =>
    exact serialize_blob_outside bo s data length a hf (by
      simp only [Field.width] at ha
      omega)

/-- Frame of a sequence of field writes. -/
theorem serialize_fields_outside (bo : ByteOrder) (fields : List Field) (s : WState) (a : Nat)
    (hf : ∀ f ∈ fields, f.WellTyped)
    (ha : a < s.buffer ∨ s.buffer + fieldsSize fields ≤ a) :
    (serialize_fields bo s fields).mem a = s.mem a := by
  induction fields generalizing s with
  | nil => rfl
  | cons f fs ih =>
    have hw := hf f (List.mem_cons_self _ _)
    simp only [serialize_fields, fieldsSize] at ha ⊢
    rw [ih _ (fun x hx => hf x (List.mem_cons_of_mem _ hx))
      (by rw [serialize_field_buffer bo s f hw]; omega)]
    exact serialize_field_outside bo s f a hw (by omega)

/-- Loading a range in two parts. -/
theorem loadBytes_add (mem : Mem) (p a b : Nat) :
    loadBytes mem p (a + b) = loadBytes mem p a ++ loadBytes mem (p + a) b := by
  unfold loadBytes
  rw [List.range_add, List.map_append, List.map_map]
  congr 1
  apply List.map_congr_left
  intro i _
  show mem (p + (a + i)) = mem (p + a + i)
  rw [Nat.add_assoc]

theorem leBytes_leValue (bs : List Byte) : leBytes bs.length (leValue bs) = bs := by
  induction bs with
  | nil => rfl
  | cons b bs ih =>
    have hb := b.isLt
    have h1 : (b.val + 256 * leValue bs) % 256 = b.val := by omega
    have h2 : (b.val + 256 * leValue bs) / 256 = leValue bs := by omega
    simp only [List.length_cons, leValue, leBytes, h2, ih]
    congr 1
    exact Fin.ext h1

/-- Writing back the value read from `w` bytes gives those bytes. -/
theorem objRepr_objValue (bo : ByteOrder) (w : Nat) (bs : List Byte) (h : bs.length = w) :
    objRepr bo w (objValue bo bs) = bs := by
  subst h
  cases bo
  · exact leBytes_leValue bs
  · have h := leBytes_leValue bs.reverse
    rw [List.length_reverse] at h
    simp only [objRepr, objValue, h, List.reverse_reverse]

/-- A representation determines the value it represents. -/
theorem objRepr_inj (bo : ByteOrder) (w a b : Nat) (ha : a < 256 ^ w) (hb : b < 256 ^ w)
    (h : objRepr bo w a = objRepr bo w b) : a = b := by
  have h2 := congrArg (objValue bo) h
  rwa [objValue_objRepr, objValue_objRepr, Nat.mod_eq_of_lt ha, Nat.mod_eq_of_lt hb] at h2

/-- The bytes one `serialize_blob` call leaves behind its starting cursor. -/
theorem serialize_blob_written (bo : ByteOrder) (s : WState) (b : Blob)
    (hn : b.length < 2 ^ 32)
    (hsep : b.length ≠ 0 →
      b.data + b.length ≤ s.buffer ∨ s.buffer + 4 + b.length ≤ b.data) :
    loadBytes (serialize_blob bo s b.data b.length).mem s.buffer (4 + b.length)
      = blobBytes bo s.mem b := by
  rw [loadBytes_add, serialize_blob_length_field bo s b.data b.length hn,
    serialize_blob_payload bo s b.data b.length hn hsep]
  rfl

/-- The bytes a sequence of `serialize_blob` calls leaves behind its starting
cursor. -/
theorem serialize_blobs_written (bo : ByteOrder) (mem0 : Mem) (blobs : List Blob)
    (s : WState) (hlen : ∀ b ∈ blobs, b.length < 2 ^ 32)
    (hsep : ∀ b ∈ blobs, b.length ≠ 0 →
      b.data + b.length ≤ s.buffer ∨ s.buffer + blobsSize blobs ≤ b.data)
    (hsame : ∀ b ∈ blobs, loadBytes s.mem b.data b.length = loadBytes mem0 b.data b.length) :
    loadBytes (serialize_blobs bo s blobs).mem s.buffer (blobsSize blobs)
      = blobsBytes bo mem0 blobs := by
  induction blobs generalizing s with
  | nil => rfl
  | cons b bs ih =>
    have hb := hlen b (List.mem_cons_self _ _)
    have hbs : ∀ x ∈ bs, x.length < 2 ^ 32 := fun x hx => hlen x (List.mem_cons_of_mem _ hx)
    have hbuf := serialize_blob_buffer bo s b.data b.length hb
    have hsep1 : ∀ x ∈ bs, x.length ≠ 0 →
        x.data + x.length ≤ (serialize_blob bo s b.data b.length).buffer ∨
        (serialize_blob bo s b.data b.length).buffer + blobsSize bs ≤ x.data := by
      intro x hx h0
      have := hsep x (List.mem_cons_of_mem _ hx) h0
      simp only [blobsSize] at this
      rw [hbuf]
      omega
    have hsame1 : ∀ x ∈ bs,
        loadBytes (serialize_blob bo s b.data b.length).mem x.data x.length
          = loadBytes mem0 x.data x.length := by
      intro x hx
      rw [← hsame x (List.mem_cons_of_mem _ hx)]
      by_cases h0 : x.length = 0
      · rw [h0]; rfl
      · apply loadBytes_congr
        intro a h1 h2
        have := hsep x (List.mem_cons_of_mem _ hx) h0
        simp only [blobsSize] at this
        exact serialize_blob_outside bo s b.data b.length a hb (by omega)
    have ih1 := ih (serialize_blob bo s b.data b.length) hbs hsep1 hsame1
    rw [hbuf] at ih1
    have hfirst :
        loadBytes (serialize_blobs bo (serialize_blob bo s b.data b.length) bs).mem s.buffer
          (4 + b.length) = blobBytes bo mem0 b := by
      have h1 : blobBytes bo mem0 b = blobBytes bo s.mem b := by
        unfold blobBytes
        rw [hsame b (List.mem_cons_self _ _)]
      rw [h1, ← serialize_blob_written bo s b hb (fun h => by
        have := hsep b (List.mem_cons_self _ _) h
        simp only [blobsSize] at this
        omega)]
      apply loadBytes_congr
      intro a _ h2
      exact serialize_blobs_outside bo bs _ a hbs (by rw [hbuf]; omega)
    simp only [serialize_blobs, blobsSize, blobsBytes]
    rw [loadBytes_add, hfirst, ← Nat.add_assoc, ih1]

theorem length_blobBytes (bo : ByteOrder) (mem : Mem) (b : Blob) :
    (blobBytes bo mem b).length = 4 + b.length := by
  simp [blobBytes, length_objRepr, length_loadBytes]

/-- The framing of one blob is prefix-free. -/
theorem blobBytes_prefix_free (bo : ByteOrder) (m1 m2 : Mem) (b1 b2 : Blob)
    (t1 t2 : List Byte) (h1 : b1.length < 2 ^ 32) (h2 : b2.length < 2 ^ 32)
    (h : blobBytes bo m1 b1 ++ t1 = blobBytes bo m2 b2 ++ t2) :
    SameBlob m1 m2 b1 b2 ∧ t1 = t2 := by
  unfold blobBytes at h
  rw [List.append_assoc, List.append_assoc] at h
  obtain ⟨hl, hrest⟩ := List.append_inj h (by rw [length_objRepr, length_objRepr])
  have hn : b1.length = b2.length :=
    objRepr_inj bo 4 _ _ (by rw [two_pow_32]; exact h1) (by rw [two_pow_32]; exact h2) hl
  obtain ⟨hd, ht⟩ := List.append_inj hrest (by rw [length_loadBytes, length_loadBytes, hn])
  exact ⟨⟨hn, hd⟩, ht⟩

/-- The framing of a sequence of blobs is injective and prefix-free among
sequences of the same number of blobs. -/
theorem blobsBytes_prefix_free (bo : ByteOrder) (m1 m2 : Mem) (bs1 bs2 : List Blob)
    (t1 t2 : List Byte) (hn : bs1.length = bs2.length)
    (h1 : ∀ b ∈ bs1, b.length < 2 ^ 32) (h2 : ∀ b ∈ bs2, b.length < 2 ^ 32)
    (h : blobsBytes bo m1 bs1 ++ t1 = blobsBytes bo m2 bs2 ++ t2) :
    List.Forall₂ (SameBlob m1 m2) bs1 bs2 ∧ t1 = t2 := by
  induction bs1 generalizing bs2 with
  | nil =>
    cases bs2 with
    | nil => exact ⟨List.Forall₂.nil, h⟩
    | cons b bs => simp at hn
  | cons b1 r1 ih =>
    cases bs2 with
    | nil => simp at hn
    | cons b2 r2 =>
      simp only [blobsBytes, List.append_assoc] at h
      obtain ⟨hb, hr⟩ := blobBytes_prefix_free bo m1 m2 b1 b2 _ _
        (h1 b1 (List.mem_cons_self _ _)) (h2 b2 (List.mem_cons_self _ _)) h
      obtain ⟨hf, ht⟩ := ih r2 (by simpa using hn)
        (fun x hx => h1 x (List.mem_cons_of_mem _ hx))
        (fun x hx => h2 x (List.mem_cons_of_mem _ hx)) hr
      exact ⟨List.Forall₂.cons hb hf, ht⟩

theorem length_fieldBytes (bo : ByteOrder) (mem : Mem) (f : Field) :
    (fieldBytes bo mem f).length = f.width := by
  cases f <;> simp [fieldBytes, Field.width, length_objRepr, length_loadBytes]

/-- The bytes of a field depend on memory through the source area only, which
a write elsewhere leaves alone. -/
theorem fieldBytes_congr (bo : ByteOrder) (m1 m2 : Mem) (lo hi : Nat) (f : Field)
    (hsep : f.SourceOutside lo hi) (h : ∀ a, a < lo ∨ hi ≤ a → m1 a = m2 a) :
    fieldBytes bo m1 f = fieldBytes bo m2 f := by
  cases f with
  | int v => rfl
  | int64 v => rfl
  | blob data length =>
    simp only [fieldBytes]
    congr 1
    by_cases h0 : length = 0
    · rw [h0]; rfl
    · apply loadBytes_congr
      intro a h1 h2
      have := hsep h0
      exact h a (by omega)

/-- The bytes one field write leaves behind its starting cursor. -/
theorem serialize_field_written (bo : ByteOrder) (s : WState) (f : Field)
    (hf : f.WellTyped) (hsep : f.SourceOutside s.buffer (s.buffer + f.width)) :
    loadBytes (serialize_field bo s f).mem s.buffer f.width = fieldBytes bo s.mem f := by
  cases f with
  | int v =>
    show loadBytes (serialize_int bo s v).mem s.buffer 4 = objRepr bo 4 v
    rw [serialize_int_eq bo s v hf]
    exact loadBytes_store_objRepr bo s.mem s.buffer 4 v
  | int64 v =>
    show loadBytes (serialize_int64 bo s v).mem s.buffer 8 = objRepr bo 8 v
    rw [serialize_int64_eq bo s v hf]
    exact loadBytes_store_objRepr bo s.mem s.buffer 8 v
  | blob data length =>
    exact serialize_blob_written bo s ⟨data, length⟩ hf (fun h0 => by
      have := hsep h0
      simp only [Field.width] at this
      show data + length ≤ s.buffer ∨ s.buffer + 4 + length ≤ data
      omega)

/-- The bytes a sequence of field writes leaves behind its starting cursor. -/
theorem serialize_fields_written (bo : ByteOrder) (mem0 : Mem) (fields : List Field)
    (s : WState) (hf : ∀ f ∈ fields, f.WellTyped)
    (hsep : ∀ f ∈ fields, f.SourceOutside s.buffer (s.buffer + fieldsSize fields))
    (hsame : ∀ f ∈ fields, fieldBytes bo s.mem f = fieldBytes bo mem0 f) :
    loadBytes (serialize_fields bo s fields).mem s.buffer (fieldsSize fields)
      = fieldsBytes bo mem0 fields := by
  induction fields generalizing s with
  | nil => rfl
  | cons f fs ih =>
    have hw := hf f (List.mem_cons_self _ _)
    have hfs : ∀ x ∈ fs, x.WellTyped := fun x hx => hf x (List.mem_cons_of_mem _ hx)
    have hbuf := serialize_field_buffer bo s f hw
    -- a source outside the whole output area is outside each part of it
    have hpart : ∀ x ∈ f :: fs, ∀ lo hi, s.buffer ≤ lo →
        hi ≤ s.buffer + (f.width + fieldsSize fs) → x.SourceOutside lo hi := by
      intro x hx lo hi h1 h2
      have hx2 := hsep x hx
      cases x with
      | int v => trivial
      | int64 v => trivial
      | blob data length =>
        intro h0
        have := hx2 h0
        simp only [fieldsSize] at this
        omega
    have hsep1 : ∀ x ∈ fs,
        x.SourceOutside (serialize_field bo s f).buffer
          ((serialize_field bo s f).buffer + fieldsSize fs) := by
      intro x hx
      rw [hbuf]
      exact hpart x (List.mem_cons_of_mem _ hx) _ _ (by omega) (by omega)
    have hsame1 : ∀ x ∈ fs,
        fieldBytes bo (serialize_field bo s f).mem x = fieldBytes bo mem0 x := by
      intro x hx
      rw [← hsame x (List.mem_cons_of_mem _ hx)]
      exact fieldBytes_congr bo _ _ s.buffer (s.buffer + f.width) x
        (hpart x (List.mem_cons_of_mem _ hx) _ _ (by omega) (by omega))
        (fun a ha => serialize_field_outside bo s f a hw ha)
    have ih1 := ih (serialize_field bo s f) hfs hsep1 hsame1
    rw [hbuf] at ih1
    have hfirst :
        loadBytes (serialize_fields bo (serialize_field bo s f) fs).mem s.buffer f.width
          = fieldBytes bo mem0 f := by
      rw [← hsame f (List.mem_cons_self _ _),
        ← serialize_field_written bo s f hw
          (hpart f (List.mem_cons_self _ _) _ _ (by omega) (by omega))]
      apply loadBytes_congr
      intro a _ h2
      exact serialize_fields_outside bo fs _ a hfs (by rw [hbuf]; omega)
    simp only [serialize_fields, fieldsSize, fieldsBytes]
    rw [loadBytes_add, hfirst, ih1]

/-! ## Wire layout of the primitives (C5, C6) -/

/-- C5 (blob wire layout). For a blob of length `n < 2^32` whose source area
`[data, data + n)` does not overlap the written area `[p, p + 4 + n)`,
`serialize_blob` leaves the 4-byte representation of `n` at `[p, p + 4)`, the
`n` source bytes at `[p + 4, p + 4 + n)` and the cursor at `p + 4 + n`.
When `n = 0` the cursor is at `p + 4`, only the addresses `[p, p + 4)` may
change, and the result does not depend on `data` (so `data` may be `NULL`)
nor on any byte of memory the caller could have placed behind it. -/
theorem C5_blob_wire_layout (bo : ByteOrder) (mem : Mem) (p data n : Nat)
    (hn : n < 2 ^ 32) :
    (data + n ≤ p ∨ p + 4 + n ≤ data →
      loadBytes (serialize_blob bo ⟨mem, p⟩ data n).mem p 4 = objRepr bo 4 n ∧
      loadBytes (serialize_blob bo ⟨mem, p⟩ data n).mem (p + 4) n = loadBytes mem data n ∧
      (serialize_blob bo ⟨mem, p⟩ data n).buffer = p + 4 + n) ∧
    (n = 0 →
      (serialize_blob bo ⟨mem, p⟩ data n).buffer = p + 4 ∧
      loadBytes (serialize_blob bo ⟨mem, p⟩ data n).mem p 4 = objRepr bo 4 0 ∧
      (∀ a, a < p ∨ p + 4 ≤ a → (serialize_blob bo ⟨mem, p⟩ data n).mem a = mem a) ∧
      serialize_blob bo ⟨mem, p⟩ data n = serialize_blob bo ⟨mem, p⟩ NULL n) := by
  refine ⟨fun hsep => ⟨?_, ?_, ?_⟩, fun h0 => ?_⟩
  · exact serialize_blob_length_field bo ⟨mem, p⟩ data n hn
  · exact serialize_blob_payload bo ⟨mem, p⟩ data n hn (fun _ => hsep)
  · exact serialize_blob_buffer bo ⟨mem, p⟩ data n hn
  · subst h0
    refine ⟨?_, ?_, ?_, ?_⟩
    · exact serialize_blob_buffer bo ⟨mem, p⟩ data 0 hn
    · exact serialize_blob_length_field bo ⟨mem, p⟩ data 0 hn
    · intro a ha
      exact serialize_blob_outside bo ⟨mem, p⟩ data 0 a hn (by simpa using ha)
    · rw [serialize_blob_zero, serialize_blob_zero]

/-- C5 at a concrete input: the 3-byte blob `07 08 09` stored at address 100
is serialized at address 16 of a little-endian target. -/
theorem C5_blob_wire_layout_witness :
    (3 < 2 ^ 32 ∧ (100 + 3 ≤ 16 ∨ 16 + 4 + 3 ≤ 100)) ∧
    loadBytes (serialize_blob .little ⟨storeBytes (fun _ => 0) 100 [7, 8, 9], 16⟩ 100 3).mem
      16 4 = objRepr .little 4 3 ∧
    loadBytes (serialize_blob .little ⟨storeBytes (fun _ => 0) 100 [7, 8, 9], 16⟩ 100 3).mem
      (16 + 4) 3 = loadBytes (storeBytes (fun _ => 0) 100 [7, 8, 9]) 100 3 ∧
    (serialize_blob .little ⟨storeBytes (fun _ => 0) 100 [7, 8, 9], 16⟩ 100 3).buffer
      = 16 + 4 + 3 :=
  ⟨by decide,
    (C5_blob_wire_layout .little (storeBytes (fun _ => 0) 100 [7, 8, 9]) 16 100 3
      (by decide)).1 (by decide)⟩

/-- C6 (integer wire layout). On a little-endian target `serialize_int` stores
at the cursor the 4 bytes `(v / 256^i) mod 256`, `i = 0..3`, of a 32-bit `v`,
changes no other address and advances the cursor by 4; `serialize_int64`
stores the 8 bytes `(v / 256^i) mod 256`, `i = 0..7`, of a 64-bit `v`, changes
no other address and advances the cursor by 8. -/
theorem C6_integer_wire_layout (mem : Mem) (p v : Nat) :
    (v < 2 ^ 32 →
      (∀ i, i < 4 →
        ((serialize_int .little ⟨mem, p⟩ v).mem (p + i)).val = v / 256 ^ i % 256) ∧
      (∀ a, a < p ∨ p + 4 ≤ a → (serialize_int .little ⟨mem, p⟩ v).mem a = mem a) ∧
      (serialize_int .little ⟨mem, p⟩ v).buffer = p + 4) ∧
    (v < 2 ^ 64 →
      (∀ i, i < 8 →
        ((serialize_int64 .little ⟨mem, p⟩ v).mem (p + i)).val = v / 256 ^ i % 256) ∧
      (∀ a, a < p ∨ p + 8 ≤ a → (serialize_int64 .little ⟨mem, p⟩ v).mem a = mem a) ∧
      (serialize_int64 .little ⟨mem, p⟩ v).buffer = p + 8) := by
  constructor
  · intro hv
    rw [serialize_int_eq _ _ _ hv]
    refine ⟨?_, ?_, rfl⟩
    · intro i hi
      have hl : i < (objRepr .little 4 v).length := by rw [length_objRepr]; exact hi
      show (storeBytes mem p (objRepr .little 4 v) (p + i)).val = _
      rw [storeBytes_inside _ _ _ _ hl]
      exact getElem_leBytes 4 v i hl
    · intro a ha
      exact storeBytes_outside _ _ _ _ (by rw [length_objRepr]; exact ha)
  · intro hv
    rw [serialize_int64_eq _ _ _ hv]
    refine ⟨?_, ?_, rfl⟩
    · intro i hi
      have hl : i < (objRepr .little 8 v).length := by rw [length_objRepr]; exact hi
      show (storeBytes mem p (objRepr .little 8 v) (p + i)).val = _
      rw [storeBytes_inside _ _ _ _ hl]
      exact getElem_leBytes 8 v i hl
    · intro a ha
      exact storeBytes_outside _ _ _ _ (by rw [length_objRepr]; exact ha)

/-- C6 at a concrete input: byte 1 of the 32-bit value `0x04030201` and byte 5
of the 64-bit value `0x0807060504030201`, written at address 16. -/
theorem C6_integer_wire_layout_witness :
    (0x04030201 < 2 ^ 32 ∧ 1 < 4 ∧
      ((serialize_int .little ⟨fun _ => 0, 16⟩ 0x04030201).mem (16 + 1)).val
        = 0x04030201 / 256 ^ 1 % 256) ∧
    (0x0807060504030201 < 2 ^ 64 ∧ 5 < 8 ∧
      ((serialize_int64 .little ⟨fun _ => 0, 16⟩ 0x0807060504030201).mem (16 + 5)).val
        = 0x0807060504030201 / 256 ^ 5 % 256) :=
  ⟨⟨by decide, by decide,
      ((C6_integer_wire_layout (fun _ => 0) 16 0x04030201).1 (by decide)).1 1 (by decide)⟩,
    ⟨by decide, by decide,
      ((C6_integer_wire_layout (fun _ => 0) 16 0x0807060504030201).2 (by decide)).1 5
        (by decide)⟩⟩

/-! ## Round trip of the fixed-width integers (C7) and empty blobs (C8) -/

/-- C7 (fixed-width integer round trip). For either byte order,
`deserialize_int` applied where `serialize_int` wrote a 32-bit `v` returns `v`
and a cursor advanced by 4; `deserialize_int64` applied where
`serialize_int64` wrote a 64-bit `v` returns the full `v` and a cursor
advanced by 8.  Both read cursors equal the write cursor. -/
theorem C7_integer_round_trip (bo : ByteOrder) (mem : Mem) (p v : Nat) :
    (v < 2 ^ 32 →
      deserialize_int bo (serialize_int bo ⟨mem, p⟩ v).mem p = ⟨p + 4, v⟩ ∧
      (serialize_int bo ⟨mem, p⟩ v).buffer = p + 4) ∧
    (v < 2 ^ 64 →
      deserialize_int64 bo (serialize_int64 bo ⟨mem, p⟩ v).mem p = ⟨p + 8, v⟩ ∧
      (serialize_int64 bo ⟨mem, p⟩ v).buffer = p + 8) := by
  constructor
  · intro hv
    rw [serialize_int_eq _ _ _ hv]
    refine ⟨?_, rfl⟩
    show IntRead.mk _ _ = _
    rw [loadBytes_store_objRepr, objValue_objRepr, two_pow_32, Nat.mod_eq_of_lt hv]
  · intro hv
    rw [serialize_int64_eq _ _ _ hv]
    refine ⟨?_, rfl⟩
    show IntRead.mk _ _ = _
    rw [loadBytes_store_objRepr, objValue_objRepr, two_pow_64, Nat.mod_eq_of_lt hv]

/-- C7 at concrete inputs, the 64-bit value having non-zero upper 32 bits. -/
theorem C7_integer_round_trip_witness :
    (0xDEADBEEF < 2 ^ 32 ∧
      deserialize_int .big (serialize_int .big ⟨fun _ => 0, 16⟩ 0xDEADBEEF).mem 16
        = ⟨16 + 4, 0xDEADBEEF⟩) ∧
    (0xFFFFFFFF00000001 < 2 ^ 64 ∧
      deserialize_int64 .little
        (serialize_int64 .little ⟨fun _ => 0, 16⟩ 0xFFFFFFFF00000001).mem 16
        = ⟨16 + 8, 0xFFFFFFFF00000001⟩) :=
  ⟨⟨by decide,
      ((C7_integer_round_trip .big (fun _ => 0) 16 0xDEADBEEF).1 (by decide)).1⟩,
    ⟨by decide,
      ((C7_integer_round_trip .little (fun _ => 0) 16 0xFFFFFFFF00000001).2 (by decide)).1⟩⟩

/-- C8 (zero-length blob decode). Whenever the 4 bytes at the cursor are the
representation of the length 0, `deserialize_blob` returns length 0 and a
`NULL` data pointer and advances the cursor by exactly 4, whatever the rest of
memory holds. -/
theorem C8_zero_length_blob_decode (bo : ByteOrder) (mem : Mem) (p : Nat)
    (h0 : loadBytes mem p 4 = objRepr bo 4 0) :
    deserialize_blob bo mem p = ⟨p + 4, NULL, 0⟩ := by
  unfold deserialize_blob
  rw [h0, objValue_objRepr]
  simp

/-- C8 at a concrete input: a zero length field at address 16 followed by
non-zero bytes. -/
theorem C8_zero_length_blob_decode_witness :
    loadBytes (storeBytes (fun _ => 0) 16 [0, 0, 0, 0, 0xAA, 0xBB, 0xCC]) 16 4
      = objRepr .little 4 0 ∧
    deserialize_blob .little (storeBytes (fun _ => 0) 16 [0, 0, 0, 0, 0xAA, 0xBB, 0xCC]) 16
      = ⟨16 + 4, NULL, 0⟩ :=
  ⟨by decide,
    C8_zero_length_blob_decode .little
      (storeBytes (fun _ => 0) 16 [0, 0, 0, 0, 0xAA, 0xBB, 0xCC]) 16 (by decide)⟩

/-! ## Message round trip (C1) -/

/-- C1 (message round trip). Let `c` be a 32-bit leading value and `blobs` a
finite sequence of blobs, each of length below `2^32`, whose non-empty source
areas do not overlap the output area `[p, p + 4 + blobsSize blobs)`.  After
`serialize_int` and one `serialize_blob` per blob, starting at `p`, reading
from `p` with `deserialize_int` and as many `deserialize_blob` calls returns
`c` and, blob by blob, the length of the blob and a view holding its bytes
(`NULL` for an empty blob); the read cursor equals the write cursor. -/
theorem C1_message_round_trip (bo : ByteOrder) (mem : Mem) (p c : Nat) (blobs : List Blob)
    (hc : c < 2 ^ 32) (hlen : ∀ b ∈ blobs, b.length < 2 ^ 32)
    (hsep : ∀ b ∈ blobs, b.length ≠ 0 →
      b.data + b.length ≤ p ∨ p + 4 + blobsSize blobs ≤ b.data) :
    (read_message bo (write_message bo ⟨mem, p⟩ c blobs).mem p blobs.length).code = c ∧
    List.Forall₂ (IsViewOf (write_message bo ⟨mem, p⟩ c blobs).mem mem)
      (read_message bo (write_message bo ⟨mem, p⟩ c blobs).mem p blobs.length).blobs blobs ∧
    (read_message bo (write_message bo ⟨mem, p⟩ c blobs).mem p blobs.length).buffer
      = (write_message bo ⟨mem, p⟩ c blobs).buffer := by
  have hs := serialize_int_eq bo ⟨mem, p⟩ c hc
  have hsep1 : ∀ b ∈ blobs, b.length ≠ 0 →
      b.data + b.length ≤ (serialize_int bo ⟨mem, p⟩ c).buffer ∨
      (serialize_int bo ⟨mem, p⟩ c).buffer + blobsSize blobs ≤ b.data := by
    intro b hb h0
    have := hsep b hb h0
    rw [hs]
    show _ ≤ p + 4 ∨ p + 4 + _ ≤ _
    omega
  have hsame : ∀ b ∈ blobs,
      loadBytes (serialize_int bo ⟨mem, p⟩ c).mem b.data b.length
        = loadBytes mem b.data b.length := by
    intro b hb
    by_cases h0 : b.length = 0
    · rw [h0]; rfl
    · rw [hs]
      apply loadBytes_congr
      intro a h1 h2
      have := hsep b hb h0
      exact storeBytes_outside mem p _ a (by rw [length_objRepr]; omega)
  obtain ⟨h1, h2⟩ := deserialize_serialize_blobs bo mem blobs _ hlen hsep1 hsame
  have hbuf : (serialize_int bo ⟨mem, p⟩ c).buffer = p + 4 := by rw [hs]
  rw [hbuf] at h1 h2
  have hcode : objValue bo (loadBytes (write_message bo ⟨mem, p⟩ c blobs).mem p 4) = c := by
    have : loadBytes (write_message bo ⟨mem, p⟩ c blobs).mem p 4 = objRepr bo 4 c := by
      rw [← loadBytes_store_objRepr bo mem p 4 c]
      apply loadBytes_congr
      intro a _ h2
      unfold write_message
      rw [serialize_blobs_outside bo blobs _ a hlen (by rw [hbuf]; omega), hs]
    rw [this, objValue_objRepr, two_pow_32, Nat.mod_eq_of_lt hc]
  exact ⟨hcode, h2, h1⟩

/-- C1 at a concrete input: code 1, the 2-byte blob `68 69` stored at address
100 and an empty blob with a `NULL` pointer, written at address 16. -/
theorem C1_message_round_trip_witness :
    ((1 < 2 ^ 32) ∧
      (∀ b ∈ [Blob.mk 100 2, Blob.mk NULL 0], b.length < 2 ^ 32) ∧
      (∀ b ∈ [Blob.mk 100 2, Blob.mk NULL 0], b.length ≠ 0 →
        b.data + b.length ≤ 16 ∨
        16 + 4 + blobsSize [Blob.mk 100 2, Blob.mk NULL 0] ≤ b.data)) ∧
    ((read_message .little
        (write_message .little ⟨storeBytes (fun _ => 0) 100 [0x68, 0x69], 16⟩ 1
          [Blob.mk 100 2, Blob.mk NULL 0]).mem 16
        [Blob.mk 100 2, Blob.mk NULL 0].length).code = 1 ∧
      List.Forall₂
        (IsViewOf
          (write_message .little ⟨storeBytes (fun _ => 0) 100 [0x68, 0x69], 16⟩ 1
            [Blob.mk 100 2, Blob.mk NULL 0]).mem
          (storeBytes (fun _ => 0) 100 [0x68, 0x69]))
        (read_message .little
          (write_message .little ⟨storeBytes (fun _ => 0) 100 [0x68, 0x69], 16⟩ 1
            [Blob.mk 100 2, Blob.mk NULL 0]).mem 16
          [Blob.mk 100 2, Blob.mk NULL 0].length).blobs
        [Blob.mk 100 2, Blob.mk NULL 0] ∧
      (read_message .little
        (write_message .little ⟨storeBytes (fun _ => 0) 100 [0x68, 0x69], 16⟩ 1
          [Blob.mk 100 2, Blob.mk NULL 0]).mem 16
        [Blob.mk 100 2, Blob.mk NULL 0].length).buffer
        = (write_message .little ⟨storeBytes (fun _ => 0) 100 [0x68, 0x69], 16⟩ 1
          [Blob.mk 100 2, Blob.mk NULL 0]).buffer) :=
  ⟨⟨by decide, by decide, by decide⟩,
    C1_message_round_trip .little (storeBytes (fun _ => 0) 100 [0x68, 0x69]) 16 1
      [Blob.mk 100 2, Blob.mk NULL 0] (by decide) (by decide) (by decide)⟩

/-! ## The concrete scenarios (C9, C10) -/

/-- C9 (concrete scenario 1). On a little-endian target, with `"alice"` stored
at address 1000 and 32 zero bytes at address 2000 of a memory otherwise filled
with `AA`, writing `GK_ENROLL` and the two blobs at address 16 leaves exactly
the 49 bytes `00 00 00 00`, `05 00 00 00`, `"alice"`, `20 00 00 00` and 32 zero
bytes; reading them back gives command 0, a view of length 5 holding `"alice"`
and a view of length 32 holding 32 zero bytes, the read cursor ending where
the write cursor ended. -/
theorem C9_scenario_enroll_request :
    (write_message .little
      ⟨storeBytes (storeBytes (fun _ => 0xAA) 1000 [0x61, 0x6C, 0x69, 0x63, 0x65]) 2000
        (List.replicate 32 0), 16⟩
      GK_ENROLL [Blob.mk 1000 5, Blob.mk 2000 32]).buffer = 16 + 49 ∧
    loadBytes (write_message .little
      ⟨storeBytes (storeBytes (fun _ => 0xAA) 1000 [0x61, 0x6C, 0x69, 0x63, 0x65]) 2000
        (List.replicate 32 0), 16⟩
      GK_ENROLL [Blob.mk 1000 5, Blob.mk 2000 32]).mem 16 49
      = [0x00, 0x00, 0x00, 0x00, 0x05, 0x00, 0x00, 0x00, 0x61, 0x6C, 0x69, 0x63, 0x65,
          0x20, 0x00, 0x00, 0x00] ++ List.replicate 32 0 ∧
    read_message .little (write_message .little
      ⟨storeBytes (storeBytes (fun _ => 0xAA) 1000 [0x61, 0x6C, 0x69, 0x63, 0x65]) 2000
        (List.replicate 32 0), 16⟩
      GK_ENROLL [Blob.mk 1000 5, Blob.mk 2000 32]).mem 16 2
      = ⟨16 + 49, 0, [Blob.mk (16 + 8) 5, Blob.mk (16 + 17) 32]⟩ ∧
    GK_ENROLL = 0 ∧
    loadBytes (write_message .little
      ⟨storeBytes (storeBytes (fun _ => 0xAA) 1000 [0x61, 0x6C, 0x69, 0x63, 0x65]) 2000
        (List.replicate 32 0), 16⟩
      GK_ENROLL [Blob.mk 1000 5, Blob.mk 2000 32]).mem (16 + 8) 5
      = [0x61, 0x6C, 0x69, 0x63, 0x65] ∧
    loadBytes (write_message .little
      ⟨storeBytes (storeBytes (fun _ => 0xAA) 1000 [0x61, 0x6C, 0x69, 0x63, 0x65]) 2000
        (List.replicate 32 0), 16⟩
      GK_ENROLL [Blob.mk 1000 5, Blob.mk 2000 32]).mem (16 + 17) 32
      = List.replicate 32 0 := by
  decide

/-- C10 (concrete scenario 2). On a little-endian target, writing
`ERROR_INVALID` and an empty blob (`NULL`, length 0) at address 16 of a memory
filled with `AA` leaves exactly the 8 bytes `01 00 00 00 00 00 00 00`; reading
them back gives the code 1 = `ERROR_INVALID`, blob length 0 and a `NULL` data
pointer, with the cursor 8 bytes after the start. -/
theorem C10_scenario_verify_response :
    (write_message .little ⟨fun _ => 0xAA, 16⟩ ERROR_INVALID [Blob.mk NULL 0]).buffer
      = 16 + 8 ∧
    loadBytes (write_message .little ⟨fun _ => 0xAA, 16⟩ ERROR_INVALID [Blob.mk NULL 0]).mem
      16 8 = [0x01, 0x00, 0x00, 0x00, 0x00, 0x00, 0x00, 0x00] ∧
    read_message .little
      (write_message .little ⟨fun _ => 0xAA, 16⟩ ERROR_INVALID [Blob.mk NULL 0]).mem 16 1
      = ⟨16 + 8, 1, [Blob.mk NULL 0]⟩ ∧
    ERROR_INVALID = 1 := by
  decide

/-! ## Bounds: what the helpers do not check (C2, C3, C4) -/

/-- C2 as stated fails. On a little-endian target the 5-byte buffer
`[16, 21)` holds `05 00 00 00 41`, a 5-byte blob cut after its first payload
byte: the length field claims 5 bytes and 1 remains.  `deserialize_blob`
reports no error: it returns length 5, a view starting at 20, and the cursor
25; cursor and view end 4 bytes past the buffer end 21. -/
theorem C2_counterexample :
    loadBytes (storeBytes (fun _ => 0) 16 [0x05, 0x00, 0x00, 0x00, 0x41]) 16 5
      = [0x05, 0x00, 0x00, 0x00, 0x41] ∧
    objValue .little (loadBytes (storeBytes (fun _ => 0) 16 [0x05, 0x00, 0x00, 0x00, 0x41]) 16 4)
      = 5 ∧
    (16 + 5) - (16 + 4) < 5 ∧
    deserialize_blob .little (storeBytes (fun _ => 0) 16 [0x05, 0x00, 0x00, 0x00, 0x41]) 16
      = ⟨25, 20, 5⟩ ∧
    16 + 5 < 25 ∧ 16 + 5 < 20 + 5 := by
  decide

/-- C2 amended. `deserialize_blob` does not compare the length field with the
buffer end.  On a target with `w`-bit pointers, for every memory and cursor
`p` with `p + 4` below `2^w`, it returns the value `L < 2^32` of the 4 bytes at
`p` as length, the view `p + 4` (`NULL` when `L = 0`) and the cursor
`(p + 4 + L) mod 2^w`.  For a buffer ending at `stop`: if the field lies in the
buffer and claims more bytes than remain after it, the `L` bytes of the
returned view do not end in the buffer, and the returned cursor is past `stop`
unless `p + 4 + L` reaches `2^w` and the cursor wraps around; if `4 + L` bytes
are available, cursor and view end at or before `stop`.  As long as
`p + 4 + L` is below `2^w` the result is the one computed with unbounded
addresses. -/
theorem C2_blob_length_not_validated (w : Nat) (bo : ByteOrder) (mem : Mem) (p stop : Nat)
    (hp : p + 4 < 2 ^ w) :
    (deserialize_blob_w w bo mem p).length = objValue bo (loadBytes mem p 4) ∧
    (deserialize_blob_w w bo mem p).length < 2 ^ 32 ∧
    (deserialize_blob_w w bo mem p).buffer
      = (p + 4 + (deserialize_blob_w w bo mem p).length) % 2 ^ w ∧
    ((deserialize_blob_w w bo mem p).length ≠ 0 → (deserialize_blob_w w bo mem p).data = p + 4) ∧
    ((deserialize_blob_w w bo mem p).length = 0 → (deserialize_blob_w w bo mem p).data = NULL) ∧
    (p + 4 ≤ stop → stop - (p + 4) < objValue bo (loadBytes mem p 4) →
      stop < (deserialize_blob_w w bo mem p).data + (deserialize_blob_w w bo mem p).length ∧
      (p + 4 + objValue bo (loadBytes mem p 4) < 2 ^ w →
        stop < (deserialize_blob_w w bo mem p).buffer)) ∧
    (p + 4 + objValue bo (loadBytes mem p 4) ≤ stop → stop < 2 ^ w →
      (deserialize_blob_w w bo mem p).buffer ≤ stop ∧
      (deserialize_blob_w w bo mem p).data + (deserialize_blob_w w bo mem p).length ≤ stop ∧
      (deserialize_blob_w w bo mem p).buffer = p + 4 + objValue bo (loadBytes mem p 4)) ∧
    (p + 4 + objValue bo (loadBytes mem p 4) < 2 ^ w →
      deserialize_blob_w w bo mem p = deserialize_blob bo mem p) := by
  have hlt : objValue bo (loadBytes mem p 4) < 2 ^ 32 := by
    have h := objValue_lt bo (loadBytes mem p 4)
    rwa [length_loadBytes, two_pow_32] at h
  have hp4 : (p + 4) % 2 ^ w = p + 4 := Nat.mod_eq_of_lt hp
  by_cases h0 : objValue bo (loadBytes mem p 4) = 0
  · have hd : deserialize_blob_w w bo mem p = ⟨p + 4, NULL, 0⟩ := by
      unfold deserialize_blob_w
      rw [h0, hp4]
      rfl
    have hi : deserialize_blob bo mem p = ⟨p + 4, NULL, 0⟩ := by
      unfold deserialize_blob
      rw [h0]
      rfl
    rw [hd, hi, h0]
    refine ⟨rfl, by norm_num, ?_, fun h => absurd rfl h, fun _ => rfl, ?_, ?_, fun _ => rfl⟩
    · show p + 4 = (p + 4 + 0) % 2 ^ w
      rw [Nat.add_zero, hp4]
    · intro _ h
      omega
    · intro h _
      refine ⟨h, ?_, rfl⟩
      show NULL + 0 ≤ stop
      simp [NULL]
  · have hd : deserialize_blob_w w bo mem p
        = ⟨(p + 4 + objValue bo (loadBytes mem p 4)) % 2 ^ w, p + 4,
            objValue bo (loadBytes mem p 4)⟩ := by
      unfold deserialize_blob_w
      rw [if_pos h0, hp4]
    have hi : deserialize_blob bo mem p
        = ⟨p + 4 + objValue bo (loadBytes mem p 4), p + 4,
            objValue bo (loadBytes mem p 4)⟩ := by
      unfold deserialize_blob
      rw [if_pos h0]
    rw [hd, hi]
    refine ⟨rfl, hlt, rfl, fun _ => rfl, fun h => absurd h h0, ?_, ?_, ?_⟩
    · intro h1 h2
      refine ⟨?_, fun h3 => ?_⟩
      · dsimp only
        omega
      · dsimp only
        rw [Nat.mod_eq_of_lt h3]
        omega
    · intro h hs
      have h3 : p + 4 + objValue bo (loadBytes mem p 4) < 2 ^ w := Nat.lt_of_le_of_lt h hs
      dsimp only
      rw [Nat.mod_eq_of_lt h3]
      exact ⟨h, h, rfl⟩
    · intro h3
      rw [Nat.mod_eq_of_lt h3]

/-- C2 amended, on a target with 32-bit pointers.  At the truncated 5-byte
buffer `05 00 00 00 41` at address 16 (`stop = 21`) the view and the cursor end
past the buffer end.  At the 5-byte buffer `FF FF FF FF 41` the view of
`2^32 - 1` bytes does not end in the buffer either, while the cursor wraps
around to 19. -/
theorem C2_blob_length_not_validated_witness :
    (16 + 4 < 2 ^ 32 ∧ 16 + 4 ≤ 21 ∧
      21 - (16 + 4) < objValue .little
        (loadBytes (storeBytes (fun _ => 0) 16 [0x05, 0x00, 0x00, 0x00, 0x41]) 16 4) ∧
      16 + 4 + objValue .little
        (loadBytes (storeBytes (fun _ => 0) 16 [0x05, 0x00, 0x00, 0x00, 0x41]) 16 4)
        < 2 ^ 32) ∧
    (21 < (deserialize_blob_w 32 .little
          (storeBytes (fun _ => 0) 16 [0x05, 0x00, 0x00, 0x00, 0x41]) 16).data +
        (deserialize_blob_w 32 .little
          (storeBytes (fun _ => 0) 16 [0x05, 0x00, 0x00, 0x00, 0x41]) 16).length ∧
      21 < (deserialize_blob_w 32 .little
        (storeBytes (fun _ => 0) 16 [0x05, 0x00, 0x00, 0x00, 0x41]) 16).buffer) ∧
    deserialize_blob_w 32 .little
      (storeBytes (fun _ => 0) 16 [0x05, 0x00, 0x00, 0x00, 0x41]) 16 = ⟨25, 20, 5⟩ ∧
    (21 - (16 + 4) < objValue .little
        (loadBytes (storeBytes (fun _ => 0) 16 [0xFF, 0xFF, 0xFF, 0xFF, 0x41]) 16 4) ∧
      21 < (deserialize_blob_w 32 .little
          (storeBytes (fun _ => 0) 16 [0xFF, 0xFF, 0xFF, 0xFF, 0x41]) 16).data +
        (deserialize_blob_w 32 .little
          (storeBytes (fun _ => 0) 16 [0xFF, 0xFF, 0xFF, 0xFF, 0x41]) 16).length) ∧
    deserialize_blob_w 32 .little
      (storeBytes (fun _ => 0) 16 [0xFF, 0xFF, 0xFF, 0xFF, 0x41]) 16
      = ⟨19, 20, 4294967295⟩ :=
  ⟨by decide,
    ⟨((C2_blob_length_not_validated 32 .little
        (storeBytes (fun _ => 0) 16 [0x05, 0x00, 0x00, 0x00, 0x41]) 16 21
        (by decide)).2.2.2.2.2.1 (by decide) (by decide)).1,
      ((C2_blob_length_not_validated 32 .little
        (storeBytes (fun _ => 0) 16 [0x05, 0x00, 0x00, 0x00, 0x41]) 16 21
        (by decide)).2.2.2.2.2.1 (by decide) (by decide)).2 (by decide)⟩,
    by decide,
    ⟨by decide,
      ((C2_blob_length_not_validated 32 .little
        (storeBytes (fun _ => 0) 16 [0xFF, 0xFF, 0xFF, 0xFF, 0x41]) 16 21
        (by decide)).2.2.2.2.2.1 (by decide) (by decide)).1⟩,
    by decide⟩

/-- C4 as stated fails. Writing `GK_ENROLL` and then a blob of 8185 bytes,
starting at address 0, is a message of 4 + 4 + 8185 = 8193 bytes, one more than
`RECV_BUF_SIZE`.  The calls report no error and leave the write cursor at
8193. -/
theorem C4_counterexample :
    RECV_BUF_SIZE = 8192 ∧
    4 + fieldsSize [Field.blob 100000 8185] = 8193 ∧
    (serialize_fields .little (serialize_int .little ⟨fun _ => 0, 0⟩ GK_ENROLL)
      [Field.blob 100000 8185]).buffer = 8193 ∧
    RECV_BUF_SIZE < (serialize_fields .little (serialize_int .little ⟨fun _ => 0, 0⟩ GK_ENROLL)
      [Field.blob 100000 8185]).buffer := by
  decide

/-- C4 amended. The serialization helpers have no failure result and enforce
no ceiling: for every leading code and every sequence of fields whose
arguments fit their C types, `serialize_int` followed by the field writers
advances the cursor by exactly 4 plus the sum of the field widths, whether or
not that total exceeds `RECV_BUF_SIZE = 8192`; and when the source areas of
the blobs do not overlap the output area, the message is written in full: the
bytes from the starting cursor to the final cursor are the representation of
the code followed by the bytes of each field. -/
theorem C4_no_size_ceiling (bo : ByteOrder) (s : WState) (c : Nat) (fields : List Field)
    (hf : ∀ f ∈ fields, f.WellTyped) :
    (serialize_fields bo (serialize_int bo s c) fields).buffer
      = s.buffer + (4 + fieldsSize fields) ∧
    RECV_BUF_SIZE = 8192 ∧
    (c < 2 ^ 32 →
      (∀ f ∈ fields, f.SourceOutside s.buffer (s.buffer + (4 + fieldsSize fields))) →
      loadBytes (serialize_fields bo (serialize_int bo s c) fields).mem s.buffer
          (4 + fieldsSize fields)
        = objRepr bo 4 c ++ fieldsBytes bo s.mem fields) := by
  have hbuf : (serialize_int bo s c).buffer = s.buffer + 4 := rfl
  refine ⟨?_, rfl, ?_⟩
  · rw [serialize_fields_buffer bo fields _ hf, hbuf]
    omega
  · intro hc hsep
    have hpart : ∀ f ∈ fields, ∀ lo hi, s.buffer ≤ lo →
        hi ≤ s.buffer + (4 + fieldsSize fields) → f.SourceOutside lo hi := by
      intro f hfm lo hi h1 h2
      have hx := hsep f hfm
      cases f with
      | int v => trivial
      | int64 v => trivial
      | blob data length =>
        intro h0
        have := hx h0
        omega
    have hrest := serialize_fields_written bo s.mem fields (serialize_int bo s c) hf
      (fun f hfm => by
        rw [hbuf]
        exact hpart f hfm _ _ (by omega) (by omega))
      (fun f hfm => fieldBytes_congr bo _ _ s.buffer (s.buffer + 4) f
        (hpart f hfm _ _ (by omega) (by omega))
        (fun a ha => serialize_int_outside bo s c a ha))
    rw [hbuf] at hrest
    have hcode :
        loadBytes (serialize_fields bo (serialize_int bo s c) fields).mem s.buffer 4
          = objRepr bo 4 c := by
      rw [← loadBytes_store_objRepr bo s.mem s.buffer 4 c]
      apply loadBytes_congr
      intro a _ h2
      rw [serialize_fields_outside bo fields _ a hf (by rw [hbuf]; omega),
        serialize_int_eq bo s c hc]
    rw [loadBytes_add, hcode, hrest]

/-- C4 amended, at a message of exactly `RECV_BUF_SIZE` bytes written at
address 4096 of a memory filled with `5A`: the code `ERROR_NONE`, a 64-bit
integer, a 32-bit integer and a blob of 8172 bytes read from address 100000. -/
theorem C4_no_size_ceiling_witness :
    ((∀ f ∈ [Field.int64 7, Field.int 9, Field.blob 100000 8172], f.WellTyped) ∧
      ERROR_NONE < 2 ^ 32 ∧
      (∀ f ∈ [Field.int64 7, Field.int 9, Field.blob 100000 8172],
        f.SourceOutside 4096
          (4096 + (4 + fieldsSize [Field.int64 7, Field.int 9, Field.blob 100000 8172])))) ∧
    ((serialize_fields .little (serialize_int .little ⟨fun _ => 0x5A, 4096⟩ ERROR_NONE)
        [Field.int64 7, Field.int 9, Field.blob 100000 8172]).buffer
      = 4096 + (4 + fieldsSize [Field.int64 7, Field.int 9, Field.blob 100000 8172])) ∧
    loadBytes
        (serialize_fields .little (serialize_int .little ⟨fun _ => 0x5A, 4096⟩ ERROR_NONE)
          [Field.int64 7, Field.int 9, Field.blob 100000 8172]).mem 4096
        (4 + fieldsSize [Field.int64 7, Field.int 9, Field.blob 100000 8172])
      = objRepr .little 4 ERROR_NONE
        ++ fieldsBytes .little (fun _ => 0x5A)
          [Field.int64 7, Field.int 9, Field.blob 100000 8172] ∧
    4 + fieldsSize [Field.int64 7, Field.int 9, Field.blob 100000 8172] = RECV_BUF_SIZE ∧
    loadBytes
        (serialize_fields .little (serialize_int .little ⟨fun _ => 0x5A, 4096⟩ ERROR_NONE)
          [Field.int64 7, Field.int 9, Field.blob 100000 8172]).mem 4096 20
      = [0, 0, 0, 0, 7, 0, 0, 0, 0, 0, 0, 0, 9, 0, 0, 0, 0xEC, 0x1F, 0, 0] :=
  ⟨by decide,
    (C4_no_size_ceiling .little ⟨fun _ => 0x5A, 4096⟩ ERROR_NONE
      [Field.int64 7, Field.int 9, Field.blob 100000 8172] (by decide)).1,
    (C4_no_size_ceiling .little ⟨fun _ => 0x5A, 4096⟩ ERROR_NONE
      [Field.int64 7, Field.int 9, Field.blob 100000 8172] (by decide)).2.2
      (by decide) (by decide),
    by decide,
    by decide⟩

/-! ## Consumed length (C11) -/

/-- C11 (consumed length). `get_size(buffer, iter)` is the number of bytes
from `buffer` to `iter`, reduced modulo `2^32`.  After any sequence of
`serialize_int`, `serialize_int64` and `serialize_blob` calls whose arguments
fit their C types, `get_size` of the start and the final cursor is the sum of
the encoded widths modulo `2^32`, hence that sum itself when it is below
`2^32`. -/
theorem C11_consumed_length (bo : ByteOrder) (s : WState) (fields : List Field)
    (hf : ∀ f ∈ fields, f.WellTyped) :
    (∀ buffer iter : Nat, buffer ≤ iter →
      get_size buffer iter = (iter - buffer) % 2 ^ 32 ∧
      (iter - buffer < 2 ^ 32 → get_size buffer iter = iter - buffer)) ∧
    get_size s.buffer (serialize_fields bo s fields).buffer = fieldsSize fields % 2 ^ 32 ∧
    (fieldsSize fields < 2 ^ 32 →
      get_size s.buffer (serialize_fields bo s fields).buffer = fieldsSize fields) := by
  have hgen : ∀ buffer iter : Nat, buffer ≤ iter →
      get_size buffer iter = (iter - buffer) % 2 ^ 32 := by
    intro buffer iter h
    unfold get_size
    norm_num
    omega
  have hrun : get_size s.buffer (serialize_fields bo s fields).buffer
      = fieldsSize fields % 2 ^ 32 := by
    rw [serialize_fields_buffer bo fields s hf, hgen _ _ (by omega)]
    congr 1
    omega
  refine ⟨fun buffer iter h => ⟨hgen buffer iter h, fun hlt => ?_⟩, hrun, fun hlt => ?_⟩
  · rw [hgen buffer iter h, Nat.mod_eq_of_lt hlt]
  · rw [hrun, Nat.mod_eq_of_lt hlt]

/-- C11 at concrete inputs: an integer, a 64-bit integer and a 3-byte blob
written from address 16 take 4 + 8 + 7 = 19 bytes; a single blob of `2^32 - 1`
bytes takes `2^32 + 3` bytes, for which `get_size` gives 3. -/
theorem C11_consumed_length_witness :
    ((∀ f ∈ [Field.int 1, Field.int64 2, Field.blob 100 3], f.WellTyped) ∧
      fieldsSize [Field.int 1, Field.int64 2, Field.blob 100 3] < 2 ^ 32) ∧
    get_size 16
      (serialize_fields .little ⟨fun _ => 0, 16⟩
        [Field.int 1, Field.int64 2, Field.blob 100 3]).buffer
      = fieldsSize [Field.int 1, Field.int64 2, Field.blob 100 3] ∧
    fieldsSize [Field.int 1, Field.int64 2, Field.blob 100 3] = 19 ∧
    (∀ f ∈ [Field.blob 100 (2 ^ 32 - 1)], f.WellTyped) ∧
    get_size 16 (serialize_fields .little ⟨fun _ => 0, 16⟩ [Field.blob 100 (2 ^ 32 - 1)]).buffer
      = fieldsSize [Field.blob 100 (2 ^ 32 - 1)] % 2 ^ 32 ∧
    fieldsSize [Field.blob 100 (2 ^ 32 - 1)] % 2 ^ 32 = 3 :=
  ⟨by decide,
    (C11_consumed_length .little ⟨fun _ => 0, 16⟩
      [Field.int 1, Field.int64 2, Field.blob 100 3] (by decide)).2.2 (by decide),
    by decide,
    by decide,
    (C11_consumed_length .little ⟨fun _ => 0, 16⟩
      [Field.blob 100 (2 ^ 32 - 1)] (by decide)).2.1,
    by decide⟩

/-! ## Command identifiers and error codes (C12, C13) -/

/-- C12 as stated fails. On a little-endian target the buffer at address 16
starts with `02 00 00 00`, the encoding of 2, which is neither `GK_ENROLL` nor
`GK_VERIFY`.  Decoding the command identifier with `deserialize_int` reports
no error: it returns the value 2 and the cursor 20. -/
theorem C12_counterexample :
    loadBytes (storeBytes (fun _ => 0) 16 [0x02, 0x00, 0x00, 0x00]) 16 4
      = [0x02, 0x00, 0x00, 0x00] ∧
    deserialize_int .little (storeBytes (fun _ => 0) 16 [0x02, 0x00, 0x00, 0x00]) 16
      = ⟨20, 2⟩ ∧
    2 ∉ gatekeeper_command_t ∧ 2 ≠ GK_ENROLL ∧ 2 ≠ GK_VERIFY := by
  decide

/-- C12 amended. `deserialize_int` does not compare the decoded value with the
command identifiers and has no failure result: for every buffer whose
leading 4 bytes are the representation of a 32-bit value `v`, it returns `v`
itself and the cursor advanced by 4, also when `v` is neither `GK_ENROLL` nor
`GK_VERIFY`; the returned value is a command identifier exactly when `v` is 0
or 1. -/
theorem C12_command_id_not_checked (bo : ByteOrder) (mem : Mem) (p v : Nat)
    (hv : v < 2 ^ 32) (hb : loadBytes mem p 4 = objRepr bo 4 v) :
    deserialize_int bo mem p = ⟨p + 4, v⟩ ∧
    ((deserialize_int bo mem p).data ∈ gatekeeper_command_t ↔ v = 0 ∨ v = 1) ∧
    (v ≠ GK_ENROLL → v ≠ GK_VERIFY →
      (deserialize_int bo mem p).data ≠ GK_ENROLL ∧
      (deserialize_int bo mem p).data ≠ GK_VERIFY) := by
  have h : deserialize_int bo mem p = ⟨p + 4, v⟩ := by
    unfold deserialize_int
    rw [hb, objValue_objRepr, two_pow_32, Nat.mod_eq_of_lt hv]
  rw [h]
  refine ⟨rfl, ?_, fun h1 h2 => ⟨h1, h2⟩⟩
  simp [gatekeeper_command_t, enumValues]

/-- C12 amended, at the buffer `02 00 00 00` at address 16. -/
theorem C12_command_id_not_checked_witness :
    (2 < 2 ^ 32 ∧
      loadBytes (storeBytes (fun _ => 0) 16 [0x02, 0x00, 0x00, 0x00]) 16 4
        = objRepr .little 4 2 ∧
      2 ≠ GK_ENROLL ∧ 2 ≠ GK_VERIFY) ∧
    deserialize_int .little (storeBytes (fun _ => 0) 16 [0x02, 0x00, 0x00, 0x00]) 16
      = ⟨16 + 4, 2⟩ ∧
    ((deserialize_int .little
        (storeBytes (fun _ => 0) 16 [0x02, 0x00, 0x00, 0x00]) 16).data ≠ GK_ENROLL ∧
      (deserialize_int .little
        (storeBytes (fun _ => 0) 16 [0x02, 0x00, 0x00, 0x00]) 16).data ≠ GK_VERIFY) :=
  ⟨by decide,
    (C12_command_id_not_checked .little
      (storeBytes (fun _ => 0) 16 [0x02, 0x00, 0x00, 0x00]) 16 2 (by decide) (by decide)).1,
    (C12_command_id_not_checked .little
      (storeBytes (fun _ => 0) 16 [0x02, 0x00, 0x00, 0x00]) 16 2 (by decide)
      (by decide)).2.2 (by decide) (by decide)⟩

/-- C13 (wire constants). The numbering rule of C gives the enumerators of
`gatekeeper_command_t` the values `GK_ENROLL = 0`, `GK_VERIFY = 1` and those of
`gatekeeper_error_t` the values `ERROR_NONE = 0`, `ERROR_INVALID = 1`,
`ERROR_RETRY = 2`, `ERROR_UNKNOWN = 3`.  Within each enumeration the values are
pairwise distinct, and for either byte order so are their 4-byte
representations; reading the representation back gives the value. -/
theorem C13_wire_constants :
    gatekeeper_command_t = [GK_ENROLL, GK_VERIFY] ∧
    gatekeeper_error_t = [ERROR_NONE, ERROR_INVALID, ERROR_RETRY, ERROR_UNKNOWN] ∧
    (GK_ENROLL = 0 ∧ GK_VERIFY = 1) ∧
    (ERROR_NONE = 0 ∧ ERROR_INVALID = 1 ∧ ERROR_RETRY = 2 ∧ ERROR_UNKNOWN = 3) ∧
    gatekeeper_command_t.Nodup ∧ gatekeeper_error_t.Nodup ∧
    (∀ bo : ByteOrder,
      (gatekeeper_command_t.map (objRepr bo 4)).Nodup ∧
      (gatekeeper_error_t.map (objRepr bo 4)).Nodup ∧
      gatekeeper_command_t.map (fun c => objValue bo (objRepr bo 4 c)) = gatekeeper_command_t ∧
      gatekeeper_error_t.map (fun e => objValue bo (objRepr bo 4 e)) = gatekeeper_error_t) := by
  refine ⟨by decide, by decide, by decide, by decide, by decide, by decide, ?_⟩
  intro bo
  cases bo <;> decide

/-! ## Frame of the writers (C14) -/

/-- C14 (write frame). From any state with cursor `p`, `serialize_int`
changes no byte outside `[p, p + 4)`, `serialize_int64` none outside
`[p, p + 8)` and `serialize_blob` with a length `n < 2^32` none outside
`[p, p + 4 + n)`.  Hence a sequence of field writes changes no byte below its
starting cursor or at or above its final cursor, so the writes that come after
a field leave that field as it was written. -/
theorem C14_write_frame (bo : ByteOrder) (s : WState) (a : Nat) :
    (∀ v, a < s.buffer ∨ s.buffer + 4 ≤ a → (serialize_int bo s v).mem a = s.mem a) ∧
    (∀ v, a < s.buffer ∨ s.buffer + 8 ≤ a → (serialize_int64 bo s v).mem a = s.mem a) ∧
    (∀ data n, n < 2 ^ 32 → a < s.buffer ∨ s.buffer + 4 + n ≤ a →
      (serialize_blob bo s data n).mem a = s.mem a) ∧
    (∀ fields, (∀ f ∈ fields, f.WellTyped) →
      a < s.buffer ∨ s.buffer + fieldsSize fields ≤ a →
      (serialize_fields bo s fields).mem a = s.mem a) ∧
    (∀ f later, f.WellTyped → (∀ g ∈ later, g.WellTyped) →
      a < (serialize_field bo s f).buffer →
      (serialize_fields bo (serialize_field bo s f) later).mem a
        = (serialize_field bo s f).mem a) := by
  refine ⟨?_, ?_, ?_, ?_, ?_⟩
  · intro v ha
    exact serialize_int_outside bo s v a ha
  · intro v ha
    exact serialize_int64_outside bo s v a ha
  · intro data n hn ha
    exact serialize_blob_outside bo s data n a hn ha
  · intro fields hf ha
    exact serialize_fields_outside bo fields s a hf ha
  · intro f later _ hl ha
    exact serialize_fields_outside bo later _ a hl (Or.inl ha)

/-- C14 at a concrete input: after the blob `07 08 09` is written at address
16, writing an integer and a 64-bit integer behind it leaves byte 22, the last
byte of the blob, as the blob write left it. -/
theorem C14_write_frame_witness :
    (Field.WellTyped (Field.blob 100 3) ∧
      (∀ g ∈ [Field.int 0xFFFFFFFF, Field.int64 5], g.WellTyped) ∧
      22 < (serialize_field .little ⟨storeBytes (fun _ => 0) 100 [7, 8, 9], 16⟩
        (Field.blob 100 3)).buffer) ∧
    (serialize_fields .little
      (serialize_field .little ⟨storeBytes (fun _ => 0) 100 [7, 8, 9], 16⟩ (Field.blob 100 3))
      [Field.int 0xFFFFFFFF, Field.int64 5]).mem 22
      = (serialize_field .little ⟨storeBytes (fun _ => 0) 100 [7, 8, 9], 16⟩
        (Field.blob 100 3)).mem 22 :=
  ⟨by decide,
    (C14_write_frame .little ⟨storeBytes (fun _ => 0) 100 [7, 8, 9], 16⟩ 22).2.2.2.2
      (Field.blob 100 3) [Field.int 0xFFFFFFFF, Field.int64 5]
      (by decide) (by decide) (by decide)⟩

/-! ## Decode then encode (C15) -/

/-- C15 (canonical encoding). Let `L` be the value of the 4 bytes at cursor `p`
and let the fresh area `[q, q + 4 + L)` not overlap the input area
`[p, p + 4 + L)`.  Then `serialize_blob` at `q`, applied to the data pointer
and length `deserialize_blob` returned at `p`, leaves at `q` exactly the
`4 + L` bytes found at `p` and advances its cursor by as much as the read
cursor advanced.  Likewise `serialize_int` of the value `deserialize_int`
returned leaves the 4 bytes read, and `serialize_int64` of the value
`deserialize_int64` returned leaves the 8 bytes read, in whatever memory they
are written. -/
theorem C15_canonical_encoding (bo : ByteOrder) (mem : Mem) (p q : Nat) :
    (p + 4 + objValue bo (loadBytes mem p 4) ≤ q ∨
        q + 4 + objValue bo (loadBytes mem p 4) ≤ p →
      loadBytes
          (serialize_blob bo ⟨mem, q⟩ (deserialize_blob bo mem p).data
            (deserialize_blob bo mem p).length).mem q
          (4 + objValue bo (loadBytes mem p 4))
        = loadBytes mem p (4 + objValue bo (loadBytes mem p 4)) ∧
      (serialize_blob bo ⟨mem, q⟩ (deserialize_blob bo mem p).data
          (deserialize_blob bo mem p).length).buffer - q
        = (deserialize_blob bo mem p).buffer - p) ∧
    (∀ mem2 : Mem,
      loadBytes (serialize_int bo ⟨mem2, q⟩ (deserialize_int bo mem p).data).mem q 4
        = loadBytes mem p 4) ∧
    (∀ mem2 : Mem,
      loadBytes (serialize_int64 bo ⟨mem2, q⟩ (deserialize_int64 bo mem p).data).mem q 8
        = loadBytes mem p 8) := by
  have hlt : objValue bo (loadBytes mem p 4) < 2 ^ 32 := by
    have h := objValue_lt bo (loadBytes mem p 4)
    rwa [length_loadBytes, two_pow_32] at h
  have hlt8 : objValue bo (loadBytes mem p 8) < 2 ^ 64 := by
    have h := objValue_lt bo (loadBytes mem p 8)
    rwa [length_loadBytes, two_pow_64] at h
  refine ⟨?_, ?_, ?_⟩
  · intro hsep
    have hr := deserialize_blob_of_field bo mem p (objValue bo (loadBytes mem p 4)) hlt
      (objRepr_objValue bo 4 _ (length_loadBytes mem p 4)).symm
    have hfield := serialize_blob_length_field bo ⟨mem, q⟩ (deserialize_blob bo mem p).data
      (objValue bo (loadBytes mem p 4)) hlt
    have hbuf := serialize_blob_buffer bo ⟨mem, q⟩ (deserialize_blob bo mem p).data
      (objValue bo (loadBytes mem p 4)) hlt
    have hlen : (deserialize_blob bo mem p).length = objValue bo (loadBytes mem p 4) := by
      rw [hr]
      split <;> rfl
    have hcur : (deserialize_blob bo mem p).buffer
        = p + 4 + objValue bo (loadBytes mem p 4) := by
      rw [hr]
      split
      · rfl
      · rename_i h0
        have : objValue bo (loadBytes mem p 4) = 0 := by simpa using h0
        simp [this]
    have hpay : loadBytes
        (serialize_blob bo ⟨mem, q⟩ (deserialize_blob bo mem p).data
          (objValue bo (loadBytes mem p 4))).mem (q + 4) (objValue bo (loadBytes mem p 4))
        = loadBytes mem (p + 4) (objValue bo (loadBytes mem p 4)) := by
      by_cases h0 : objValue bo (loadBytes mem p 4) = 0
      · rw [h0]
        rfl
      · have hdata : (deserialize_blob bo mem p).data = p + 4 := by
          rw [hr, if_pos h0]
        rw [hdata]
        exact serialize_blob_payload bo ⟨mem, q⟩ (p + 4) _ hlt (fun _ => by
          show p + 4 + _ ≤ q ∨ q + 4 + _ ≤ p + 4
          omega)
    rw [hlen]
    constructor
    · rw [loadBytes_add, loadBytes_add, hfield, hpay,
        objRepr_objValue bo 4 _ (length_loadBytes mem p 4)]
    · rw [hbuf, hcur]
      show q + 4 + _ - q = _
      omega
  · intro mem2
    rw [serialize_int_eq bo _ _ (by
      show objValue bo (loadBytes mem p 4) < 2 ^ 32
      exact hlt)]
    show loadBytes (storeBytes mem2 q (objRepr bo 4 (objValue bo (loadBytes mem p 4)))) q 4 = _
    rw [loadBytes_store_objRepr, objRepr_objValue bo 4 _ (length_loadBytes mem p 4)]
  · intro mem2
    rw [serialize_int64_eq bo _ _ (by
      show objValue bo (loadBytes mem p 8) < 2 ^ 64
      exact hlt8)]
    show loadBytes (storeBytes mem2 q (objRepr bo 8 (objValue bo (loadBytes mem p 8)))) q 8 = _
    rw [loadBytes_store_objRepr, objRepr_objValue bo 8 _ (length_loadBytes mem p 8)]

/-- C15 at a concrete input: the encoded blob `03 00 00 00 07 08 09` at
address 16 is decoded and written again at address 64. -/
theorem C15_canonical_encoding_witness :
    (16 + 4 + objValue .little
        (loadBytes (storeBytes (fun _ => 0xAA) 16 [3, 0, 0, 0, 7, 8, 9]) 16 4) ≤ 64 ∨
      64 + 4 + objValue .little
        (loadBytes (storeBytes (fun _ => 0xAA) 16 [3, 0, 0, 0, 7, 8, 9]) 16 4) ≤ 16) ∧
    loadBytes
        (serialize_blob .little ⟨storeBytes (fun _ => 0xAA) 16 [3, 0, 0, 0, 7, 8, 9], 64⟩
          (deserialize_blob .little
            (storeBytes (fun _ => 0xAA) 16 [3, 0, 0, 0, 7, 8, 9]) 16).data
          (deserialize_blob .little
            (storeBytes (fun _ => 0xAA) 16 [3, 0, 0, 0, 7, 8, 9]) 16).length).mem 64
        (4 + objValue .little
          (loadBytes (storeBytes (fun _ => 0xAA) 16 [3, 0, 0, 0, 7, 8, 9]) 16 4))
      = loadBytes (storeBytes (fun _ => 0xAA) 16 [3, 0, 0, 0, 7, 8, 9]) 16
        (4 + objValue .little
          (loadBytes (storeBytes (fun _ => 0xAA) 16 [3, 0, 0, 0, 7, 8, 9]) 16 4)) ∧
    loadBytes (storeBytes (fun _ => 0xAA) 16 [3, 0, 0, 0, 7, 8, 9]) 16
        (4 + objValue .little
          (loadBytes (storeBytes (fun _ => 0xAA) 16 [3, 0, 0, 0, 7, 8, 9]) 16 4))
      = [3, 0, 0, 0, 7, 8, 9] :=
  ⟨by decide,
    ((C15_canonical_encoding .little (storeBytes (fun _ => 0xAA) 16 [3, 0, 0, 0, 7, 8, 9])
      16 64).1 (by decide)).1,
    by decide⟩

/-! ## Unambiguous framing (C16) -/

/-- C16 (unambiguous blob framing). Take two `serialize_blob` calls, in
memories `m1`, `m2` at cursors `p1`, `p2`, for blobs of lengths below `2^32`
whose non-empty source areas do not overlap the written areas.  If the bytes
written by the first followed by `t1` equal the bytes written by the second
followed by `t2`, then the blobs have the same length and the same bytes, and
`t1 = t2`.  Hence, for two sequences of the same number of blobs written by
consecutive `serialize_blob` calls, equal written bytes imply that the
sequences agree blob by blob. -/
theorem C16_unambiguous_blob_framing (bo : ByteOrder) (m1 m2 : Mem) (p1 p2 : Nat) :
    (∀ (b1 b2 : Blob) (t1 t2 : List Byte),
      b1.length < 2 ^ 32 → b2.length < 2 ^ 32 →
      (b1.length ≠ 0 → b1.data + b1.length ≤ p1 ∨ p1 + 4 + b1.length ≤ b1.data) →
      (b2.length ≠ 0 → b2.data + b2.length ≤ p2 ∨ p2 + 4 + b2.length ≤ b2.data) →
      loadBytes (serialize_blob bo ⟨m1, p1⟩ b1.data b1.length).mem p1 (4 + b1.length) ++ t1
        = loadBytes (serialize_blob bo ⟨m2, p2⟩ b2.data b2.length).mem p2 (4 + b2.length)
          ++ t2 →
      SameBlob m1 m2 b1 b2 ∧ t1 = t2) ∧
    (∀ bs1 bs2 : List Blob, bs1.length = bs2.length →
      (∀ b ∈ bs1, b.length < 2 ^ 32) → (∀ b ∈ bs2, b.length < 2 ^ 32) →
      (∀ b ∈ bs1, b.length ≠ 0 →
        b.data + b.length ≤ p1 ∨ p1 + blobsSize bs1 ≤ b.data) →
      (∀ b ∈ bs2, b.length ≠ 0 →
        b.data + b.length ≤ p2 ∨ p2 + blobsSize bs2 ≤ b.data) →
      loadBytes (serialize_blobs bo ⟨m1, p1⟩ bs1).mem p1 (blobsSize bs1)
        = loadBytes (serialize_blobs bo ⟨m2, p2⟩ bs2).mem p2 (blobsSize bs2) →
      List.Forall₂ (SameBlob m1 m2) bs1 bs2) := by
  constructor
  · intro b1 b2 t1 t2 h1 h2 hs1 hs2 h
    rw [serialize_blob_written bo ⟨m1, p1⟩ b1 h1 hs1,
      serialize_blob_written bo ⟨m2, p2⟩ b2 h2 hs2] at h
    exact blobBytes_prefix_free bo m1 m2 b1 b2 t1 t2 h1 h2 h
  · intro bs1 bs2 hn h1 h2 hs1 hs2 h
    rw [serialize_blobs_written bo m1 bs1 ⟨m1, p1⟩ h1 hs1 (fun _ _ => rfl),
      serialize_blobs_written bo m2 bs2 ⟨m2, p2⟩ h2 hs2 (fun _ _ => rfl)] at h
    have h3 : blobsBytes bo m1 bs1 ++ [] = blobsBytes bo m2 bs2 ++ [] := by
      rw [List.append_nil, List.append_nil]
      exact h
    exact (blobsBytes_prefix_free bo m1 m2 bs1 bs2 [] [] hn h1 h2 h3).1

/-- C16 at a concrete input: the blob `07 08` written at address 16 from a
source at 100, followed by `09 0A`, against the blob `07 08` written at address
32 of another memory from a source at 200, followed by `09 0A`. -/
theorem C16_unambiguous_blob_framing_witness :
    ((Blob.mk 100 2).length < 2 ^ 32 ∧ (Blob.mk 200 2).length < 2 ^ 32 ∧
      ((Blob.mk 100 2).length ≠ 0 →
        (Blob.mk 100 2).data + (Blob.mk 100 2).length ≤ 16 ∨
        16 + 4 + (Blob.mk 100 2).length ≤ (Blob.mk 100 2).data) ∧
      ((Blob.mk 200 2).length ≠ 0 →
        (Blob.mk 200 2).data + (Blob.mk 200 2).length ≤ 32 ∨
        32 + 4 + (Blob.mk 200 2).length ≤ (Blob.mk 200 2).data) ∧
      loadBytes (serialize_blob .little ⟨storeBytes (fun _ => 0) 100 [7, 8], 16⟩
          (Blob.mk 100 2).data (Blob.mk 100 2).length).mem 16 (4 + (Blob.mk 100 2).length)
          ++ [9, 10]
        = loadBytes (serialize_blob .little ⟨storeBytes (fun _ => 0xAA) 200 [7, 8, 1], 32⟩
          (Blob.mk 200 2).data (Blob.mk 200 2).length).mem 32 (4 + (Blob.mk 200 2).length)
          ++ [9, 10]) ∧
    (SameBlob (storeBytes (fun _ => 0) 100 [7, 8]) (storeBytes (fun _ => 0xAA) 200 [7, 8, 1])
        (Blob.mk 100 2) (Blob.mk 200 2) ∧
      ([9, 10] : List Byte) = [9, 10]) :=
  ⟨by decide,
    (C16_unambiguous_blob_framing .little (storeBytes (fun _ => 0) 100 [7, 8])
      (storeBytes (fun _ => 0xAA) 200 [7, 8, 1]) 16 32).1
      (Blob.mk 100 2) (Blob.mk 200 2) [9, 10] [9, 10]
      (by decide) (by decide) (by decide) (by decide) (by decide)⟩

end Gatekeeper
